import Mathlib

/-!
Verification development for the prompt module of a voicemail application
(src/lib/prompt.js): a playlist builder plus a four-state machina state
machine (init, processing, playing, done) wrapped in a play/stop facade.

The playlist builder is embedded as pure functions on lists of characters,
mirroring the JavaScript regex `exec` of the brace pattern and
`String.prototype.replace` with a string search value (including the
dollar escapes of its replacement template and the coercion of a missing
key to the string "undefined").

The state machine is embedded as a step function on an explicit session
record, driven by the external asynchronous events the code reacts to:
delivery of the queued play and stop commands, resolution of the client
acquisition, the channel disconnect signal, resolution of the
channel-play call, the playback-finished signal, expiry of the
post-silence timer, and resolution of the playback-stop call. A run is a
fold of the step function over a list of events; validity of a trace
requires each event to be enabled when processed (a promise can only
resolve if pending, a signal only fires while its listener is attached, a
timer only fires while scheduled).
-/

set_option maxRecDepth 8000
set_option linter.unusedVariables false

namespace VMPrompt

/-- A sound descriptor as supplied to `create`: `sound` is the media
reference (possibly holding one placeholder), `skipable` says whether a
stop request may abandon the sound mid-playback, `postSilence` is the
delay in seconds inserted after the sound finishes (the code multiplies
it by 1000 to get milliseconds). -/
structure Sound where
  sound : String
  skipable : Bool
  postSilence : Nat
deriving DecidableEq, Repr

/-- Line terminators: the dot in the JavaScript regex matches any
character except these. -/
def isLineTerminator (c : Char) : Bool :=
  c = '\n' || c = '\r' || c = '\u2028' || c = '\u2029'

/-- Greedy backtracking of the group: among the positions `p` of `r` with
`p ≥ 1` (the group needs at least one character) holding a closing brace,
the largest one. `r` is the maximal dot-matchable run following the
opening brace. -/
def lastCloseBrace (r : List Char) : Option Nat :=
  ((List.range r.length).filter (fun p => decide (1 ≤ p) && (r.get? p == some '}'))).getLast?

/-- Greedy match of the group-and-closing-brace part of the regex against
the characters following an opening brace: the dot-run is cut at the
first line terminator, and the group closes at the last closing brace
inside it. Returns the capture group. -/
def matchAfterBrace (rest : List Char) : Option (List Char) :=
  let r := rest.takeWhile (fun c => !isLineTerminator c)
  (lastCloseBrace r).map (fun p => r.take p)

/-- The `exec` of the brace regex on a media string: leftmost match with
a greedy group. Returns the capture group; the full match is the group
enclosed in braces. -/
def execBrace : List Char → Option (List Char)
  | [] => none
  | c :: rest =>
    if c = '{' then
      match matchAfterBrace rest with
      | some g => some g
      | none => execBrace rest
    else execBrace rest

/-- The substitution template of `String.prototype.replace` for a string
search value: a dollar followed by a dollar, an ampersand, a backquote or
a quote inserts a dollar, the matched text, the text before the match or
the text after the match respectively; any other use of the dollar is
literal. -/
def getSubst (matched pre post : List Char) : List Char → List Char
  | [] => []
  | [c] => [c]
  | c :: d :: rest =>
    if c = '$' then
      if d = '$' then '$' :: getSubst matched pre post rest
      else if d = '&' then matched ++ getSubst matched pre post rest
      else if d = Char.ofNat 96 then pre ++ getSubst matched pre post rest
      else if d = '\'' then post ++ getSubst matched pre post rest
      else '$' :: getSubst matched pre post (d :: rest)
    else c :: getSubst matched pre post (d :: rest)

/-- Split a list around the first occurrence of `pat`:
`String.prototype.replace` with a string search value replaces only the
first occurrence. -/
def splitFirst (pat : List Char) : List Char → Option (List Char × List Char)
  | [] => if pat.isPrefixOf [] then some ([], []) else none
  | c :: rest =>
    if pat.isPrefixOf (c :: rest) then some ([], (c :: rest).drop pat.length)
    else (splitFirst pat rest).map (fun q => (c :: q.1, q.2))

/-- One element of the `sounds.map` body in `states.processing.play`:
clone the descriptor, run the brace regex on its media string, and if it
matches, replace the matched token with the value looked up in the
replacement mapping. A missing key gives the undefined value, which the
replace call renders as the string "undefined". -/
def resolveSound (repl : List (String × String)) (s : Sound) : Sound :=
  match execBrace s.sound.data with
  | none => s
  | some g =>
    let matched := '{' :: (g ++ ['}'])
    let value := (List.lookup (String.mk g) repl).getD "undefined"
    match splitFirst matched s.sound.data with
    | none => s
    | some q =>
      { s with sound := String.mk (q.1 ++ getSubst matched q.1 q.2 value.data ++ q.2) }

/-- The playlist built by `states.processing.play` from the declared
sound list and the replacement mapping. -/
def buildPlaylist (sounds : List Sound) (repl : List (String × String)) : List Sound :=
  sounds.map (resolveSound repl)

/-- The four machina states of the prompt state machine. -/
inductive FsmState
  | init | processing | playing | done
deriving DecidableEq, Repr

/-- The error carried by an Error emission: a hangup, a client
acquisition failure, or a failed channel-play call. -/
inductive EKind
  | hungup | clientFailure | playbackFailure
deriving DecidableEq, Repr

/-- The one-shot outcome signals of the state machine: PromptFinished,
PromptStopped, or Error. -/
inductive Oc
  | finished | stopped | err (k : EKind)
deriving DecidableEq, Repr

/-- Resolution of the future returned by `api.play` for a given outcome
signal: PromptFinished resolves it to true, PromptStopped resolves it to
false, Error rejects it. -/
def Oc.promise : Oc → Except EKind Bool
  | .finished => .ok true
  | .stopped => .ok false
  | .err k => .error k

/-- The parameters captured by the closure creating the state machine:
the declared sound list and the replacement mapping. -/
structure Ctx where
  sounds : List Sound
  repl : List (String × String)
deriving DecidableEq, Repr

/-- A session: the mutable state owned by one state machine instance and
the facade of one `play()` invocation, together with a record of its
externally visible activity.

`clientPending` says the client acquisition started in the init entry
action has not resolved yet. `hangupListener`, `pbListener` and
`listeners` say the channel disconnect handler, the playback-finished
handler of the current playback, and the three facade outcome listeners
are attached. `playbackSet` says a playback handle was ever created.
`timer` is the pending post-silence timeout with its delay in
milliseconds. `pendingPlay` and `pendingStops` count unresolved
channel-play and playback-stop promises. `outcome` is the settled value
of the facade future. `plays` records the media strings passed to
channel-play calls in order, `stopCalls` counts playback-stop requests,
and `finCount` counts delivered playback-finished signals. `crashed`
marks a thrown exception (reading a property of an undefined playback
handle). -/
structure Sess where
  fsmSt : FsmState
  clientPending : Bool
  hangupListener : Bool
  pbListener : Bool
  playbackSet : Bool
  stopped : Bool
  crashed : Bool
  listeners : Bool
  playlist : List Sound
  sound : Option Sound
  deferredProcessing : Nat
  deferredPlaying : Nat
  timer : Option Nat
  pendingPlay : Nat
  pendingStops : Nat
  outcome : Option Oc
  plays : List String
  stopCalls : Nat
  finCount : Nat
deriving DecidableEq, Repr

/-- The external asynchronous events a session reacts to. `cmdPlay` and
`cmdStop` are the deliveries of the `state.handle` calls queued by the
facade; `clientReady` and `clientError` resolve the client acquisition;
`hangup` is the channel disconnect signal; `playResolved` and
`playRejected` resolve a channel-play call; `playbackFinished` is the
playback-finished signal; `timerFire` is the expiry of the post-silence
timeout; `stopResolved` and `stopRejected` resolve a playback-stop
call. -/
inductive Ev
  | cmdPlay | cmdStop
  | clientReady | clientError
  | hangup
  | playResolved | playRejected
  | playbackFinished
  | timerFire
  | stopResolved | stopRejected
deriving DecidableEq, Repr

/-- An emission of an outcome signal. The facade attaches its three
listeners once per `play()` invocation; whichever fires first settles the
future and detaches all three, so an emission with the listeners gone
leaves the future untouched. -/
def emitO (o : Oc) (s : Sess) : Sess :=
  if s.listeners then { s with outcome := some o, listeners := false } else s

/-- Entering the done state: the entry action removes the hangup handler
and the playback-finished handler. -/
def enterDone (s : Sess) : Sess :=
  { s with fsmSt := .done, hangupListener := false, pbListener := false }

/-- The channel-play call made in `states.playing.next`: create a
playback handle, attach a one-shot playback-finished handler to it, and
start playback of the current sound on the channel (one more pending
channel-play promise). -/
def startPlayback (a : Sound) (s : Sess) : Sess :=
  { s with playbackSet := true, pbListener := true,
           plays := s.plays ++ [a.sound], pendingPlay := s.pendingPlay + 1 }

/-- The `finished` handler of the playing state: if the playlist is
empty, emit PromptStopped or PromptFinished according to the stopped flag
and transition to done; otherwise schedule the internal next after the
current sound's post-silence (or at once when stopped). Reading the
post-silence of an undefined current sound would throw; that branch is
unreachable. -/
def handleFinishedPlaying (s : Sess) : Sess :=
  if s.playlist.isEmpty then
    enterDone (emitO (if s.stopped then .stopped else .finished) s)
  else
    match s.sound with
    | some snd => { s with timer := some (if s.stopped then 0 else snd.postSilence * 1000) }
    | none => { s with crashed := true }

/-- The `next` handler of the playing state: shift the first sound off
the playlist into the current slot; with nothing left, dispatch
`finished`; with the prompt stopped and a skipable sound, dispatch
`finished` without playing it; otherwise start its playback. -/
def handleNextPlaying (s : Sess) : Sess :=
  match s.playlist with
  | [] => handleFinishedPlaying { s with sound := none }
  | a :: rest =>
    let s1 := { s with playlist := rest, sound := some a }
    if s1.stopped && a.skipable then handleFinishedPlaying s1
    else startPlayback a s1

/-- The `stop` handler of the playing state: set the stopped flag; if the
current sound exists and is skipable, request a best-effort stop of the
playback handle (whose resolution is ignored). If no playback handle was
ever created, that request throws on the undefined handle. -/
def handleStopPlaying (s : Sess) : Sess :=
  let s1 := { s with stopped := true }
  match s1.sound with
  | some snd =>
    if snd.skipable then
      if s1.playbackSet then
        { s1 with stopCalls := s1.stopCalls + 1, pendingStops := s1.pendingStops + 1 }
      else { s1 with crashed := true }
    else s1
  | none => s1

/-- Replaying the stop commands deferred until the playing state, in
order, stopping at a thrown exception. -/
def flushStops : Nat → Sess → Sess
  | 0, s => s
  | n + 1, s => if s.crashed then s else flushStops n (handleStopPlaying s)

/-- Transition to the playing state: machina replays the commands
deferred until this state after entering it. -/
def transitionPlaying (s : Sess) : Sess :=
  flushStops s.deferredPlaying { s with fsmSt := .playing, deferredPlaying := 0 }

/-- The `play` handler of the processing state: build the playlist,
transition to playing (replaying deferred stops) and dispatch the
internal `next`. -/
def processingPlay (c : Ctx) (s : Sess) : Sess :=
  let s1 := transitionPlaying { s with playlist := buildPlaylist c.sounds c.repl }
  if s1.crashed then s1 else handleNextPlaying s1

/-- Transition to the processing state: replay the play commands
deferred until this state. The first replayed play moves the machine on
to playing, so any further deferred play is replayed in a state with no
handler for it and is dropped. -/
def transitionProcessing (c : Ctx) (s : Sess) : Sess :=
  let s1 := { s with fsmSt := .processing }
  if s1.deferredProcessing = 0 then s1
  else processingPlay c { s1 with deferredProcessing := 0 }

/-- One step of a session on one event, following the handler table of
the machina instance: a command with no handler in the current state
(and no catch-all) is dropped; the done state's catch-all only logs. -/
def step (c : Ctx) (s : Sess) : Ev → Sess
  | .cmdPlay =>
    match s.fsmSt with
    | .init => { s with deferredProcessing := s.deferredProcessing + 1 }
    | .processing => processingPlay c s
    | .playing => s
    | .done => s
  | .cmdStop =>
    match s.fsmSt with
    | .init => { s with deferredPlaying := s.deferredPlaying + 1 }
    | .processing => s
    | .playing => handleStopPlaying s
    | .done => s
  | .clientReady => transitionProcessing c { s with clientPending := false }
  | .clientError => enterDone (emitO (.err .clientFailure) { s with clientPending := false })
  | .hangup => enterDone (emitO (.err .hungup) { s with hangupListener := false })
  | .playResolved => { s with pendingPlay := s.pendingPlay - 1 }
  | .playRejected => enterDone (emitO (.err .playbackFailure) { s with pendingPlay := s.pendingPlay - 1 })
  | .playbackFinished =>
    let s1 := { s with pbListener := false, finCount := s.finCount + 1 }
    match s1.fsmSt with
    | .playing => handleFinishedPlaying s1
    | _ => s1
  | .timerFire =>
    let s1 := { s with timer := none }
    match s1.fsmSt with
    | .playing => handleNextPlaying s1
    | _ => s1
  | .stopResolved => { s with pendingStops := s.pendingStops - 1 }
  | .stopRejected => { s with pendingStops := s.pendingStops - 1 }

/-- Whether an event can occur in a given session state: promises only
resolve while pending, signals only fire while their listener is
attached, the timeout only fires while scheduled, and nothing runs after
a thrown exception took the process down. -/
def enabled (s : Sess) : Ev → Bool
  | .cmdPlay => !s.crashed
  | .cmdStop => !s.crashed
  | .clientReady => !s.crashed && s.clientPending
  | .clientError => !s.crashed && s.clientPending
  | .hangup => !s.crashed && s.hangupListener
  | .playResolved => !s.crashed && decide (0 < s.pendingPlay)
  | .playRejected => !s.crashed && decide (0 < s.pendingPlay)
  | .playbackFinished => !s.crashed && s.pbListener
  | .timerFire => !s.crashed && s.timer.isSome
  | .stopResolved => !s.crashed && decide (0 < s.pendingStops)
  | .stopRejected => !s.crashed && decide (0 < s.pendingStops)

/-- The session as it stands when `play()` has been called: the machine
was created in the init state, whose entry action attached the hangup
handler and started the client acquisition, and the facade attached its
three outcome listeners. -/
def init0 : Sess where
  fsmSt := .init
  clientPending := true
  hangupListener := true
  pbListener := false
  playbackSet := false
  stopped := false
  crashed := false
  listeners := true
  playlist := []
  sound := none
  deferredProcessing := 0
  deferredPlaying := 0
  timer := none
  pendingPlay := 0
  pendingStops := 0
  outcome := none
  plays := []
  stopCalls := 0
  finCount := 0

/-- Running a session from a state over a list of events. -/
def runFrom (c : Ctx) (s : Sess) (t : List Ev) : Sess :=
  t.foldl (step c) s

/-- A trace is valid from a state when each of its events is enabled at
the point it is processed. -/
def validFrom (c : Ctx) (s : Sess) : List Ev → Bool
  | [] => true
  | e :: t => enabled s e && validFrom c (step c s e) t

/-- Events whose absence the calm scenarios assume: no stop command, no
client acquisition failure, no channel-play failure, no hangup. -/
def calm (e : Ev) : Bool :=
  !(e == Ev.cmdStop || e == Ev.clientError || e == Ev.playRejected || e == Ev.hangup)

/-- The media strings of a playlist, in order. -/
def mediasOf (P : List Sound) : List String := P.map Sound.sound

theorem runFrom_nil (c : Ctx) (s : Sess) : runFrom c s [] = s := rfl

theorem runFrom_cons (c : Ctx) (s : Sess) (e : Ev) (t : List Ev) :
    runFrom c s (e :: t) = runFrom c (step c s e) t := rfl

theorem runFrom_append (c : Ctx) (s : Sess) (t1 t2 : List Ev) :
    runFrom c s (t1 ++ t2) = runFrom c (runFrom c s t1) t2 :=
  List.foldl_append _ _ _ _

theorem validFrom_cons (c : Ctx) (s : Sess) (e : Ev) (t : List Ev) :
    validFrom c s (e :: t) = (enabled s e && validFrom c (step c s e) t) := rfl

theorem validFrom_append (c : Ctx) (s : Sess) (t1 t2 : List Ev) :
    validFrom c s (t1 ++ t2) = (validFrom c s t1 && validFrom c (runFrom c s t1) t2) := by
  induction t1 generalizing s with
  | nil => simp [validFrom, runFrom]
  | cons e t ih =>
    simp only [List.cons_append, validFrom_cons, runFrom_cons, ih, Bool.and_assoc]

/-- Session shape of the calm regime: still in init, with `d` play
commands deferred until processing. -/
def sInit (d : Nat) : Sess := { init0 with deferredProcessing := d }

/-- Session shape of the calm regime: in processing, with the client
obtained and nothing deferred. -/
def sProc : Sess := { init0 with fsmSt := .processing, clientPending := false }

/-- Session shape of the calm regime: in playing, with sound `i` started
on the channel and its playback-finished signal awaited, and `n`
channel-play promises still unresolved. -/
def sPlayA (P : List Sound) (i n : Nat) : Sess where
  fsmSt := .playing
  clientPending := false
  hangupListener := true
  pbListener := true
  playbackSet := true
  stopped := false
  crashed := false
  listeners := true
  playlist := P.drop (i + 1)
  sound := P[i]?
  deferredProcessing := 0
  deferredPlaying := 0
  timer := none
  pendingPlay := n
  pendingStops := 0
  outcome := none
  plays := (mediasOf P).take (i + 1)
  stopCalls := 0
  finCount := i

/-- Session shape of the calm regime: in playing, with sound `i` finished
and the post-silence timeout before sound `i + 1` scheduled. -/
def sPlayB (P : List Sound) (i n : Nat) : Sess where
  fsmSt := .playing
  clientPending := false
  hangupListener := true
  pbListener := false
  playbackSet := true
  stopped := false
  crashed := false
  listeners := true
  playlist := P.drop (i + 1)
  sound := P[i]?
  deferredProcessing := 0
  deferredPlaying := 0
  timer := (P[i]?).map (fun a => a.postSilence * 1000)
  pendingPlay := n
  pendingStops := 0
  outcome := none
  plays := (mediasOf P).take (i + 1)
  stopCalls := 0
  finCount := i + 1

/-- Session shape of the calm regime: done after the whole playlist
finished, with PromptFinished emitted and the future resolved true. -/
def sDoneF (P : List Sound) (n : Nat) (snd : Option Sound) (b : Bool) : Sess where
  fsmSt := .done
  clientPending := false
  hangupListener := false
  pbListener := false
  playbackSet := b
  stopped := false
  crashed := false
  listeners := false
  playlist := []
  sound := snd
  deferredProcessing := 0
  deferredPlaying := 0
  timer := none
  pendingPlay := n
  pendingStops := 0
  outcome := some .finished
  plays := mediasOf P
  stopCalls := 0
  finCount := P.length

/-- The reachable session shapes of a run with no stop command, no
client failure, no channel-play failure and no hangup. -/
def InvCalm (c : Ctx) (s : Sess) : Prop :=
  (∃ d, s = sInit d) ∨ s = sProc ∨
  (∃ i n, i < (buildPlaylist c.sounds c.repl).length ∧ s = sPlayA (buildPlaylist c.sounds c.repl) i n) ∨
  (∃ i n, i + 1 < (buildPlaylist c.sounds c.repl).length ∧ s = sPlayB (buildPlaylist c.sounds c.repl) i n) ∨
  (∃ n snd b, s = sDoneF (buildPlaylist c.sounds c.repl) n snd b)

theorem step_sInit_cmdPlay (c : Ctx) (d : Nat) :
    step c (sInit d) .cmdPlay = sInit (d + 1) := rfl

theorem step_sInit_clientReady_zero (c : Ctx) :
    step c (sInit 0) .clientReady = sProc := rfl

theorem step_sInit_clientReady_succ (c : Ctx) (d : Nat) :
    step c (sInit (d + 1)) .clientReady = processingPlay c sProc := rfl

theorem step_sProc_cmdPlay (c : Ctx) :
    step c sProc .cmdPlay = processingPlay c sProc := rfl

theorem processingPlay_sProc_nil (c : Ctx) (h : buildPlaylist c.sounds c.repl = []) :
    processingPlay c sProc = sDoneF (buildPlaylist c.sounds c.repl) 0 none false := by
  simp [processingPlay, transitionPlaying, flushStops, sProc, init0, h, handleNextPlaying,
    handleFinishedPlaying, emitO, enterDone, sDoneF, mediasOf]

theorem processingPlay_sProc_cons (c : Ctx) (a : Sound) (rest : List Sound)
    (h : buildPlaylist c.sounds c.repl = a :: rest) :
    processingPlay c sProc = sPlayA (buildPlaylist c.sounds c.repl) 0 1 := by
  simp [processingPlay, transitionPlaying, flushStops, sProc, init0, h, handleNextPlaying,
    handleFinishedPlaying, emitO, enterDone, startPlayback, sPlayA, mediasOf]

theorem step_sPlayA_finished_last (c : Ctx) (P : List Sound) (i n : Nat)
    (h : i + 1 = P.length) :
    step c (sPlayA P i n) .playbackFinished = sDoneF P n P[i]? true := by
  have hi : i < P.length := by omega
  have hne : (P.drop (i + 1)).isEmpty = true := by
    simp [List.isEmpty_iff, List.drop_eq_nil_iff]; omega
  have htk : (mediasOf P).take (i + 1) = mediasOf P := by
    apply List.take_of_length_le; simp [mediasOf]; omega
  simp [step, sPlayA, sDoneF, handleFinishedPlaying, hne, emitO, enterDone, htk, ← h]

theorem step_sPlayA_finished_mid (c : Ctx) (P : List Sound) (i n : Nat)
    (h : i + 1 < P.length) :
    step c (sPlayA P i n) .playbackFinished = sPlayB P i n := by
  have hi : i < P.length := by omega
  have hne : (P.drop (i + 1)).isEmpty = false := by
    simp [List.isEmpty_iff, List.drop_eq_nil_iff]; omega
  simp [step, sPlayA, sPlayB, handleFinishedPlaying, hne, List.getElem?_eq_getElem hi]

theorem step_sPlayB_timerFire (c : Ctx) (P : List Sound) (i n : Nat)
    (h : i + 1 < P.length) :
    step c (sPlayB P i n) .timerFire = sPlayA P (i + 1) (n + 1) := by
  have hdrop : P.drop (i + 1) = P[i + 1] :: P.drop (i + 2) := List.drop_eq_getElem_cons h
  have htk : (mediasOf P).take (i + 2) = (mediasOf P).take (i + 1) ++ [P[i + 1].sound] := by
    rw [List.take_succ]
    simp [mediasOf, List.getElem?_map, List.getElem?_eq_getElem h]
  simp only [step, sPlayB, sPlayA, hdrop, handleNextPlaying, startPlayback]
  simp [htk, List.getElem?_eq_getElem h]

theorem invCalm_init0 (c : Ctx) : InvCalm c init0 :=
  Or.inl ⟨0, rfl⟩

theorem invCalm_step (c : Ctx) (s : Sess) (e : Ev)
    (hI : InvCalm c s) (hc : calm e = true) (he : enabled s e = true) :
    InvCalm c (step c s e) := by
  rcases hI with ⟨d, rfl⟩ | rfl | ⟨i, n, hi, rfl⟩ | ⟨i, n, hi, rfl⟩ | ⟨n, snd, b, rfl⟩
  · -- init shape
    cases e with
    | cmdPlay => exact Or.inl ⟨d + 1, step_sInit_cmdPlay c d⟩
    | cmdStop => simp [calm] at hc
    | clientError => simp [calm] at hc
    | playRejected => simp [calm] at hc
    | hangup => simp [calm] at hc
    | clientReady =>
      cases d with
      | zero => exact Or.inr (Or.inl (step_sInit_clientReady_zero c))
      | succ d =>
        rw [step_sInit_clientReady_succ]
        rcases hE : buildPlaylist c.sounds c.repl with _ | ⟨a, rest⟩
        · exact Or.inr (Or.inr (Or.inr (Or.inr ⟨0, none, false, processingPlay_sProc_nil c hE⟩)))
        · refine Or.inr (Or.inr (Or.inl ⟨0, 1, ?_, processingPlay_sProc_cons c a rest hE⟩))
          rw [hE]; simp
    | playResolved => simp [enabled, sInit, init0] at he
    | playbackFinished => simp [enabled, sInit, init0] at he
    | timerFire => simp [enabled, sInit, init0] at he
    | stopResolved => simp [enabled, sInit, init0] at he
    | stopRejected => simp [enabled, sInit, init0] at he
  · -- processing shape
    cases e with
    | cmdPlay =>
      rw [step_sProc_cmdPlay]
      rcases hE : buildPlaylist c.sounds c.repl with _ | ⟨a, rest⟩
      · exact Or.inr (Or.inr (Or.inr (Or.inr ⟨0, none, false, processingPlay_sProc_nil c hE⟩)))
      · refine Or.inr (Or.inr (Or.inl ⟨0, 1, ?_, processingPlay_sProc_cons c a rest hE⟩))
        rw [hE]; simp
    | cmdStop => simp [calm] at hc
    | clientError => simp [calm] at hc
    | playRejected => simp [calm] at hc
    | hangup => simp [calm] at hc
    | clientReady => simp [enabled, sProc, init0] at he
    | playResolved => simp [enabled, sProc, init0] at he
    | playbackFinished => simp [enabled, sProc, init0] at he
    | timerFire => simp [enabled, sProc, init0] at he
    | stopResolved => simp [enabled, sProc, init0] at he
    | stopRejected => simp [enabled, sProc, init0] at he
  · -- playing shape, awaiting playback-finished
    cases e with
    | cmdPlay => exact Or.inr (Or.inr (Or.inl ⟨i, n, hi, rfl⟩))
    | cmdStop => simp [calm] at hc
    | clientError => simp [calm] at hc
    | playRejected => simp [calm] at hc
    | hangup => simp [calm] at hc
    | clientReady => simp [enabled, sPlayA] at he
    | playResolved => exact Or.inr (Or.inr (Or.inl ⟨i, n - 1, hi, rfl⟩))
    | playbackFinished =>
      rcases Nat.lt_or_ge (i + 1) (buildPlaylist c.sounds c.repl).length with hlt | hge
      · exact Or.inr (Or.inr (Or.inr (Or.inl ⟨i, n, hlt, step_sPlayA_finished_mid c _ i n hlt⟩)))
      · have heq : i + 1 = (buildPlaylist c.sounds c.repl).length := by omega
        exact Or.inr (Or.inr (Or.inr (Or.inr
          ⟨n, (buildPlaylist c.sounds c.repl)[i]?, true, step_sPlayA_finished_last c _ i n heq⟩)))
    | timerFire => simp [enabled, sPlayA] at he
    | stopResolved => simp [enabled, sPlayA] at he
    | stopRejected => simp [enabled, sPlayA] at he
  · -- playing shape, in the post-silence delay
    cases e with
    | cmdPlay => exact Or.inr (Or.inr (Or.inr (Or.inl ⟨i, n, hi, rfl⟩)))
    | cmdStop => simp [calm] at hc
    | clientError => simp [calm] at hc
    | playRejected => simp [calm] at hc
    | hangup => simp [calm] at hc
    | clientReady => simp [enabled, sPlayB] at he
    | playResolved => exact Or.inr (Or.inr (Or.inr (Or.inl ⟨i, n - 1, hi, rfl⟩)))
    | playbackFinished => simp [enabled, sPlayB] at he
    | timerFire =>
      exact Or.inr (Or.inr (Or.inl ⟨i + 1, n + 1, hi, step_sPlayB_timerFire c _ i n hi⟩))
    | stopResolved => simp [enabled, sPlayB] at he
    | stopRejected => simp [enabled, sPlayB] at he
  · -- done shape
    cases e with
    | cmdPlay => exact Or.inr (Or.inr (Or.inr (Or.inr ⟨n, snd, b, rfl⟩)))
    | cmdStop => simp [calm] at hc
    | clientError => simp [calm] at hc
    | playRejected => simp [calm] at hc
    | hangup => simp [calm] at hc
    | clientReady => simp [enabled, sDoneF] at he
    | playResolved => exact Or.inr (Or.inr (Or.inr (Or.inr ⟨n - 1, snd, b, rfl⟩)))
    | playbackFinished => simp [enabled, sDoneF] at he
    | timerFire => simp [enabled, sDoneF] at he
    | stopResolved => simp [enabled, sDoneF] at he
    | stopRejected => simp [enabled, sDoneF] at he

theorem invCalm_run (c : Ctx) (t : List Ev) (s : Sess)
    (hI : InvCalm c s) (hcalm : ∀ e ∈ t, calm e = true) (hv : validFrom c s t = true) :
    InvCalm c (runFrom c s t) := by
  induction t generalizing s with
  | nil => exact hI
  | cons e t ih =>
    rw [validFrom_cons, Bool.and_eq_true] at hv
    exact ih (step c s e)
      (invCalm_step c s e hI (hcalm e (List.mem_cons_self e t)) hv.1)
      (fun x hx => hcalm x (List.mem_cons_of_mem e hx)) hv.2

/-- The schedule that lets a session in the playing state run to natural
completion: deliver the awaited playback-finished signal, and for each
entry still to come let the post-silence timeout fire and deliver the
next playback-finished signal. -/
def driveCalm : Nat → List Ev
  | 0 => [.playbackFinished]
  | r + 1 => .playbackFinished :: .timerFire :: driveCalm r

theorem driveCalm_calm : ∀ r, ∀ e ∈ driveCalm r, calm e = true := by
  intro r
  induction r with
  | zero => intro e hx; simp [driveCalm] at hx; simp [hx, calm]
  | succ r ih =>
    intro e hx
    simp only [driveCalm, List.mem_cons] at hx
    rcases hx with rfl | rfl | hx
    · simp [calm]
    · simp [calm]
    · exact ih e hx

theorem driveCalm_spec (c : Ctx) (P : List Sound) :
    ∀ r i n, i + 1 + r = P.length →
      validFrom c (sPlayA P i n) (driveCalm r) = true ∧
      ∃ m snd, runFrom c (sPlayA P i n) (driveCalm r) = sDoneF P m snd true := by
  intro r
  induction r with
  | zero =>
    intro i n h
    have hlast : i + 1 = P.length := by omega
    constructor
    · rw [driveCalm, validFrom_cons]
      simp [enabled, sPlayA, validFrom]
    · exact ⟨n, P[i]?, step_sPlayA_finished_last c P i n hlast⟩
  | succ r ih =>
    intro i n h
    have h1 : i + 1 < P.length := by omega
    have hi : i < P.length := by omega
    have hpb : enabled (sPlayA P i n) .playbackFinished = true := by simp [enabled, sPlayA]
    have htf : enabled (sPlayB P i n) .timerFire = true := by
      simp [enabled, sPlayB, List.getElem?_eq_getElem hi]
    have ihs := ih (i + 1) (n + 1) (by omega)
    constructor
    · rw [driveCalm, validFrom_cons, step_sPlayA_finished_mid c P i n h1,
        validFrom_cons, step_sPlayB_timerFire c P i n h1]
      simp [hpb, htf, ihs.1]
    · rcases ihs.2 with ⟨m, snd, hrun⟩
      refine ⟨m, snd, ?_⟩
      rw [driveCalm, runFrom_cons, step_sPlayA_finished_mid c P i n h1,
        runFrom_cons, step_sPlayB_timerFire c P i n h1, hrun]

/-- From any calm-reachable state whose future is unresolved, some calm
schedule drives the session to the PromptFinished outcome with the whole
resolved playlist played. -/
theorem calmCompletion (c : Ctx) (s : Sess) (hI : InvCalm c s) (ho : s.outcome = none) :
    ∃ t2, (∀ e ∈ t2, calm e = true) ∧ validFrom c s t2 = true ∧
      (runFrom c s t2).outcome = some Oc.finished ∧
      (runFrom c s t2).plays = mediasOf (buildPlaylist c.sounds c.repl) := by
  have fromPlayA : ∀ i n, i < (buildPlaylist c.sounds c.repl).length →
      ∃ t2, (∀ e ∈ t2, calm e = true) ∧
        validFrom c (sPlayA (buildPlaylist c.sounds c.repl) i n) t2 = true ∧
        (runFrom c (sPlayA (buildPlaylist c.sounds c.repl) i n) t2).outcome = some Oc.finished ∧
        (runFrom c (sPlayA (buildPlaylist c.sounds c.repl) i n) t2).plays
          = mediasOf (buildPlaylist c.sounds c.repl) := by
    intro i n hi
    obtain ⟨hval, m, snd, hrun⟩ := driveCalm_spec c (buildPlaylist c.sounds c.repl)
      ((buildPlaylist c.sounds c.repl).length - (i + 1)) i n (by omega)
    exact ⟨_, driveCalm_calm _, hval, by rw [hrun]; exact ⟨rfl, rfl⟩⟩
  have fromProcPlay : ∃ t2, (∀ e ∈ t2, calm e = true) ∧
      validFrom c (processingPlay c sProc) t2 = true ∧
      (runFrom c (processingPlay c sProc) t2).outcome = some Oc.finished ∧
      (runFrom c (processingPlay c sProc) t2).plays
        = mediasOf (buildPlaylist c.sounds c.repl) := by
    rcases hE : buildPlaylist c.sounds c.repl with _ | ⟨a, rest⟩
    · refine ⟨[], by simp, by simp [validFrom], ?_, ?_⟩
      · rw [runFrom_nil, processingPlay_sProc_nil c hE]; rfl
      · rw [runFrom_nil, processingPlay_sProc_nil c hE, hE]; rfl
    · rw [processingPlay_sProc_cons c a rest hE, ← hE]
      exact fromPlayA 0 1 (by rw [hE]; simp)
  rcases hI with ⟨d, rfl⟩ | rfl | ⟨i, n, hi, rfl⟩ | ⟨i, n, hi, rfl⟩ | ⟨n, snd, b, rfl⟩
  · -- from init: deliver the play command, then let the client resolve
    obtain ⟨t2, hc2, hv2, ho2, hp2⟩ := fromProcPlay
    refine ⟨.cmdPlay :: .clientReady :: t2, ?_, ?_, ?_, ?_⟩
    · intro e hx
      rcases List.mem_cons.1 hx with rfl | hx
      · simp [calm]
      rcases List.mem_cons.1 hx with rfl | hx
      · simp [calm]
      exact hc2 e hx
    · rw [validFrom_cons, step_sInit_cmdPlay, validFrom_cons, step_sInit_clientReady_succ]
      simp only [hv2, Bool.and_true]
      simp [enabled, sInit, init0]
    · rw [runFrom_cons, step_sInit_cmdPlay, runFrom_cons, step_sInit_clientReady_succ]
      exact ho2
    · rw [runFrom_cons, step_sInit_cmdPlay, runFrom_cons, step_sInit_clientReady_succ]
      exact hp2
  · -- from processing: deliver the play command
    obtain ⟨t2, hc2, hv2, ho2, hp2⟩ := fromProcPlay
    refine ⟨.cmdPlay :: t2, ?_, ?_, ?_, ?_⟩
    · intro e hx
      rcases List.mem_cons.1 hx with rfl | hx
      · simp [calm]
      exact hc2 e hx
    · rw [validFrom_cons, step_sProc_cmdPlay]
      simp only [hv2, Bool.and_true]
      simp [enabled, sProc, init0]
    · rw [runFrom_cons, step_sProc_cmdPlay]; exact ho2
    · rw [runFrom_cons, step_sProc_cmdPlay]; exact hp2
  · exact fromPlayA i n hi
  · -- from the post-silence delay: let the timeout fire first
    have hilt : i < (buildPlaylist c.sounds c.repl).length := by omega
    obtain ⟨t2, hc2, hv2, ho2, hp2⟩ := fromPlayA (i + 1) (n + 1) hi
    refine ⟨.timerFire :: t2, ?_, ?_, ?_, ?_⟩
    · intro e hx
      rcases List.mem_cons.1 hx with rfl | hx
      · simp [calm]
      exact hc2 e hx
    · rw [validFrom_cons, step_sPlayB_timerFire c _ i n hi]
      simp only [hv2, Bool.and_true]
      simp [enabled, sPlayB, List.getElem?_eq_getElem hilt]
    · rw [runFrom_cons, step_sPlayB_timerFire c _ i n hi]; exact ho2
    · rw [runFrom_cons, step_sPlayB_timerFire c _ i n hi]; exact hp2
  · simp [sDoneF] at ho

theorem invCalm_outcome (c : Ctx) (s : Sess) (o : Oc) (hI : InvCalm c s)
    (ho : s.outcome = some o) :
    o = Oc.finished ∧ s.plays = mediasOf (buildPlaylist c.sounds c.repl) := by
  rcases hI with ⟨d, rfl⟩ | rfl | ⟨i, n, hi, rfl⟩ | ⟨i, n, hi, rfl⟩ | ⟨n, snd, b, rfl⟩
  · simp [sInit, init0] at ho
  · simp [sProc, init0] at ho
  · simp [sPlayA] at ho
  · simp [sPlayB] at ho
  · simp only [sDoneF, Option.some.injEq] at ho
    exact ⟨ho.symm, rfl⟩

theorem step_cmdStop_processing (c : Ctx) (s : Sess) (h : s.fsmSt = FsmState.processing) :
    step c s .cmdStop = s := by
  simp [step, h]

/-- C1: for every non-empty sound list, in any run in which no stop
command is issued, client acquisition succeeds (never fails), every
channel-play call succeeds (never rejects) and the channel never
disconnects: whenever the future of `play()` resolves, it resolves true
(the `PromptFinished` outcome), and the channel-play calls issued are
exactly one per resolved playlist entry, in input order; moreover from
any point at which the future is still unresolved such a run can be
completed to the true resolution with exactly those channel-play
calls. -/
theorem claim_C1 (c : Ctx) (t : List Ev)
    (hne : c.sounds ≠ [])
    (hv : validFrom c init0 t = true)
    (hcalm : ∀ e ∈ t, calm e = true) :
    (∀ o, (runFrom c init0 t).outcome = some o →
      o = Oc.finished ∧ Oc.promise o = Except.ok true ∧
      (runFrom c init0 t).plays = (buildPlaylist c.sounds c.repl).map Sound.sound) ∧
    ((runFrom c init0 t).outcome = none →
      ∃ t2, (∀ e ∈ t2, calm e = true) ∧ validFrom c (runFrom c init0 t) t2 = true ∧
        (runFrom c (runFrom c init0 t) t2).outcome = some Oc.finished ∧
        (runFrom c (runFrom c init0 t) t2).plays
          = (buildPlaylist c.sounds c.repl).map Sound.sound) := by
  have hI := invCalm_run c t init0 (invCalm_init0 c) hcalm hv
  constructor
  · intro o ho
    obtain ⟨h1, h2⟩ := invCalm_outcome c _ o hI ho
    exact ⟨h1, by rw [h1]; rfl, h2⟩
  · intro ho
    exact calmCompletion c _ hI ho

/-- Witness for C1: a concrete two-sound session, driven by the play
command, the client resolution, the two playback-finished signals and
the intervening post-silence timeout, resolves true with both media
played in order. -/
theorem claim_C1_witness :
    Oc.promise Oc.finished = Except.ok true ∧
    (runFrom ⟨[⟨"sound:hello", false, 1⟩, ⟨"sound:world", true, 0⟩], []⟩ init0
      [.cmdPlay, .clientReady, .playResolved, .playbackFinished, .timerFire,
       .playResolved, .playbackFinished]).plays
      = (buildPlaylist [⟨"sound:hello", false, 1⟩, ⟨"sound:world", true, 0⟩] []).map Sound.sound := by
  have h := (claim_C1 ⟨[⟨"sound:hello", false, 1⟩, ⟨"sound:world", true, 0⟩], []⟩
    [.cmdPlay, .clientReady, .playResolved, .playbackFinished, .timerFire,
     .playResolved, .playbackFinished]
    (by decide) (by decide) (by decide)).1 Oc.finished (by decide)
  exact ⟨h.2.1, h.2.2⟩

/-- C8: with an empty sound list and no stop, disconnect or bootstrap
failure, no channel-play call is ever issued, the future only ever
resolves with the finished outcome (true), and from the processing state
the very step that processes the play command resolves it. -/
theorem claim_C8 (c : Ctx) (t : List Ev)
    (hs : c.sounds = [])
    (hv : validFrom c init0 t = true)
    (hcalm : ∀ e ∈ t, calm e = true) :
    (runFrom c init0 t).plays = [] ∧
    (∀ o, (runFrom c init0 t).outcome = some o → o = Oc.finished) ∧
    ((runFrom c init0 t).fsmSt = FsmState.processing →
      (step c (runFrom c init0 t) Ev.cmdPlay).outcome = some Oc.finished ∧
      (step c (runFrom c init0 t) Ev.cmdPlay).plays = []) := by
  have hP : buildPlaylist c.sounds c.repl = [] := by rw [hs]; rfl
  have hI := invCalm_run c t init0 (invCalm_init0 c) hcalm hv
  refine ⟨?_, ?_, ?_⟩
  · rcases hI with ⟨d, hEq⟩ | hEq | ⟨i, n, hi, hEq⟩ | ⟨i, n, hi, hEq⟩ | ⟨n, snd, b, hEq⟩
    · rw [hEq]; rfl
    · rw [hEq]; rfl
    · rw [hP] at hi; simp at hi
    · rw [hP] at hi; simp at hi
    · rw [hEq]
      show mediasOf (buildPlaylist c.sounds c.repl) = []
      rw [hP]; rfl
  · intro o ho
    exact (invCalm_outcome c _ o hI ho).1
  · intro hproc
    have hs' : runFrom c init0 t = sProc := by
      rcases hI with ⟨d, hEq⟩ | hEq | ⟨i, n, hi, hEq⟩ | ⟨i, n, hi, hEq⟩ | ⟨n, snd, b, hEq⟩
      · rw [hEq] at hproc; exact absurd hproc (by simp [sInit, init0])
      · exact hEq
      · rw [hP] at hi; simp at hi
      · rw [hP] at hi; simp at hi
      · rw [hEq] at hproc; exact absurd hproc (by simp [sDoneF])
    rw [hs', step_sProc_cmdPlay, processingPlay_sProc_nil c hP]
    exact ⟨rfl, by show mediasOf (buildPlaylist c.sounds c.repl) = []; rw [hP]; rfl⟩

/-- Witness for C8: with no sounds, the client resolution leaves the
machine in processing, and the step processing the play command resolves
the future true at once with no channel-play call issued. -/
theorem claim_C8_witness :
    (runFrom ⟨[], []⟩ init0 [Ev.clientReady]).plays = [] ∧
    (step ⟨[], []⟩ (runFrom ⟨[], []⟩ init0 [Ev.clientReady]) Ev.cmdPlay).outcome
      = some Oc.finished ∧
    (step ⟨[], []⟩ (runFrom ⟨[], []⟩ init0 [Ev.clientReady]) Ev.cmdPlay).plays = [] := by
  have h := claim_C8 ⟨[], []⟩ [Ev.clientReady] rfl (by decide) (by decide)
  obtain ⟨h1, h2⟩ := h.2.2 (by decide)
  exact ⟨h.1, h1, h2⟩

/-- C10: a stop command delivered while the machine is in the processing
state is silently dropped: the processing state has no stop handler, so
the step is a no-op on the session (in particular the stopped flag stays
unset), the run with the stop removed is identical, and when the rest of
the run is calm the full sequence still plays with the future resolving
true. -/
theorem claim_C10 (c : Ctx) (t1 t2 : List Ev)
    (hv : validFrom c init0 (t1 ++ Ev.cmdStop :: t2) = true)
    (hp : (runFrom c init0 t1).fsmSt = FsmState.processing) :
    step c (runFrom c init0 t1) Ev.cmdStop = runFrom c init0 t1 ∧
    runFrom c init0 (t1 ++ Ev.cmdStop :: t2) = runFrom c init0 (t1 ++ t2) ∧
    (∀ o, (∀ e ∈ t1, calm e = true) → (∀ e ∈ t2, calm e = true) →
      (runFrom c init0 (t1 ++ Ev.cmdStop :: t2)).outcome = some o →
      o = Oc.finished ∧ (runFrom c init0 (t1 ++ Ev.cmdStop :: t2)).plays
        = (buildPlaylist c.sounds c.repl).map Sound.sound) := by
  have hid : step c (runFrom c init0 t1) Ev.cmdStop = runFrom c init0 t1 :=
    step_cmdStop_processing c _ hp
  have hrunEq : runFrom c init0 (t1 ++ Ev.cmdStop :: t2) = runFrom c init0 (t1 ++ t2) := by
    rw [runFrom_append, runFrom_cons, hid, ← runFrom_append]
  refine ⟨hid, hrunEq, ?_⟩
  intro o hc1 hc2 ho
  have hvsplit : validFrom c init0 (t1 ++ t2) = true := by
    rw [validFrom_append] at hv
    rw [validFrom_cons, hid] at hv
    rw [validFrom_append]
    simp only [Bool.and_eq_true] at hv ⊢
    exact ⟨hv.1, hv.2.2⟩
  have hcalm12 : ∀ e ∈ t1 ++ t2, calm e = true := by
    intro e hx
    rcases List.mem_append.1 hx with hx | hx
    · exact hc1 e hx
    · exact hc2 e hx
  have hI := invCalm_run c (t1 ++ t2) init0 (invCalm_init0 c) hcalm12 hvsplit
  rw [hrunEq] at ho ⊢
  exact invCalm_outcome c _ o hI ho

/-- Witness for C10: a stop delivered right after the client resolution
(while the machine is processing) is dropped, and the two-sound sequence
still resolves true with both media played. -/
theorem claim_C10_witness :
    step ⟨[⟨"sound:hello", false, 1⟩, ⟨"sound:world", true, 0⟩], []⟩
      (runFrom ⟨[⟨"sound:hello", false, 1⟩, ⟨"sound:world", true, 0⟩], []⟩ init0 [Ev.clientReady])
      Ev.cmdStop
      = runFrom ⟨[⟨"sound:hello", false, 1⟩, ⟨"sound:world", true, 0⟩], []⟩ init0 [Ev.clientReady] ∧
    Oc.finished = Oc.finished := by
  have h := claim_C10 ⟨[⟨"sound:hello", false, 1⟩, ⟨"sound:world", true, 0⟩], []⟩
    [Ev.clientReady] [Ev.cmdPlay, .playbackFinished, .timerFire, .playbackFinished]
    (by decide) (by decide)
  refine ⟨h.1, (h.2.2 Oc.finished (by decide) (by decide) (by decide)).1 ▸ rfl⟩

/-- The channel-play calls a stopped session ends up having made, when
the stop was processed with `j` entries already shifted off the playlist
and `k` entries shifted off in total: the first `j` entries all played;
of the entries from `j` to `k`, only the non-skipable ones played. -/
def playsF (P : List Sound) (j k : Nat) : List String :=
  (mediasOf P).take j ++ mediasOf (((P.drop j).take (k - j)).filter (fun a => !a.skipable))

theorem playsF_self (P : List Sound) (j : Nat) : playsF P j j = (mediasOf P).take j := by
  simp [playsF, mediasOf]

theorem playsF_skip (P : List Sound) (j k : Nat) (a : Sound)
    (hjk : j ≤ k) (ha : P[k]? = some a) (hs : a.skipable = true) :
    playsF P j (k + 1) = playsF P j k := by
  have h1 : k + 1 - j = (k - j) + 1 := by omega
  have h2 : (P.drop j)[k - j]? = some a := by
    rw [List.getElem?_drop]
    rwa [Nat.add_sub_cancel' hjk]
  rw [playsF, playsF, h1, List.take_succ, h2]
  simp [hs, mediasOf]

theorem playsF_keep (P : List Sound) (j k : Nat) (a : Sound)
    (hjk : j ≤ k) (ha : P[k]? = some a) (hs : a.skipable = false) :
    playsF P j (k + 1) = playsF P j k ++ [a.sound] := by
  have h1 : k + 1 - j = (k - j) + 1 := by omega
  have h2 : (P.drop j)[k - j]? = some a := by
    rw [List.getElem?_drop]
    rwa [Nat.add_sub_cancel' hjk]
  rw [playsF, playsF, h1, List.take_succ, h2]
  simp [hs, mediasOf]

theorem playsF_length_lt (P : List Sound) (j : Nat) (hj : j ≤ P.length)
    (hex : ∃ a ∈ P.drop j, a.skipable = true) :
    (playsF P j P.length).length < P.length := by
  have htk : (P.drop j).take (P.length - j) = P.drop j := by
    apply List.take_of_length_le
    simp
  have hflt : (((P.drop j)).filter (fun a => !a.skipable)).length < (P.drop j).length := by
    rw [List.length_filter_lt_length_iff_exists]
    obtain ⟨a, ha, hs⟩ := hex
    exact ⟨a, ha, by simp [hs]⟩
  have hdl : (P.drop j).length = P.length - j := by simp
  simp only [playsF, htk, List.length_append, mediasOf, List.length_map, List.length_take]
  omega

/-- Session shape of the stopped regime: in playing, with sound `i`
started on the channel and its playback-finished signal awaited. The
parameters `j` and `sc` record how many entries had been shifted off
when the stop was processed and how many playback-stop requests were
made; `f` is the count of delivered playback-finished signals. -/
def sStopA (P : List Sound) (j sc i n ps f : Nat) : Sess where
  fsmSt := .playing
  clientPending := false
  hangupListener := true
  pbListener := true
  playbackSet := true
  stopped := true
  crashed := false
  listeners := true
  playlist := P.drop (i + 1)
  sound := P[i]?
  deferredProcessing := 0
  deferredPlaying := 0
  timer := none
  pendingPlay := n
  pendingStops := ps
  outcome := none
  plays := playsF P j (i + 1)
  stopCalls := sc
  finCount := f

/-- Session shape of the stopped regime: in playing, with entry `i`
either finished or skipped, and a timeout of `d` milliseconds pending
before the next entry is shifted. -/
def sStopB (P : List Sound) (j sc i n ps d : Nat) : Sess where
  fsmSt := .playing
  clientPending := false
  hangupListener := true
  pbListener := false
  playbackSet := true
  stopped := true
  crashed := false
  listeners := true
  playlist := P.drop (i + 1)
  sound := P[i]?
  deferredProcessing := 0
  deferredPlaying := 0
  timer := some d
  pendingPlay := n
  pendingStops := ps
  outcome := none
  plays := playsF P j (i + 1)
  stopCalls := sc
  finCount := (playsF P j (i + 1)).length

/-- Session shape of the stopped regime: done, with PromptStopped
emitted and the future resolved false. -/
def sStopD (P : List Sound) (j sc n ps : Nat) (snd : Option Sound) : Sess where
  fsmSt := .done
  clientPending := false
  hangupListener := false
  pbListener := false
  playbackSet := true
  stopped := true
  crashed := false
  listeners := false
  playlist := []
  sound := snd
  deferredProcessing := 0
  deferredPlaying := 0
  timer := none
  pendingPlay := n
  pendingStops := ps
  outcome := some .stopped
  plays := playsF P j P.length
  stopCalls := sc
  finCount := (playsF P j P.length).length

/-- The reachable session shapes after a single stop command processed in
the playing state, in a run that is otherwise calm. -/
def InvStop (c : Ctx) (j sc : Nat) (s : Sess) : Prop :=
  (∃ i n ps f, j ≤ i + 1 ∧ i < (buildPlaylist c.sounds c.repl).length ∧
    f + 1 = (playsF (buildPlaylist c.sounds c.repl) j (i + 1)).length ∧
    s = sStopA (buildPlaylist c.sounds c.repl) j sc i n ps f) ∨
  (∃ i n ps d, j ≤ i + 1 ∧ i + 1 < (buildPlaylist c.sounds c.repl).length ∧
    s = sStopB (buildPlaylist c.sounds c.repl) j sc i n ps d) ∨
  (∃ n ps snd, s = sStopD (buildPlaylist c.sounds c.repl) j sc n ps snd)

theorem step_sStopA_finished_last (c : Ctx) (P : List Sound) (j sc i n ps f : Nat)
    (h : i + 1 = P.length) (hf : f + 1 = (playsF P j (i + 1)).length) :
    step c (sStopA P j sc i n ps f) .playbackFinished = sStopD P j sc n ps P[i]? := by
  have hne : (P.drop (i + 1)).isEmpty = true := by
    simp [List.isEmpty_iff, List.drop_eq_nil_iff]; omega
  simp only [step, sStopA, sStopD, handleFinishedPlaying, emitO, enterDone, ← h, hf]
  simp [hne, ← h]

theorem step_sStopA_finished_mid (c : Ctx) (P : List Sound) (j sc i n ps f : Nat)
    (h : i + 1 < P.length) (hf : f + 1 = (playsF P j (i + 1)).length) :
    step c (sStopA P j sc i n ps f) .playbackFinished = sStopB P j sc i n ps 0 := by
  have hi : i < P.length := by omega
  have hne : (P.drop (i + 1)).isEmpty = false := by
    simp [List.isEmpty_iff, List.drop_eq_nil_iff]; omega
  simp only [step, sStopA, sStopB, handleFinishedPlaying, hf]
  simp [hne, List.getElem?_eq_getElem hi]

theorem step_sStopB_timer_skip_last (c : Ctx) (P : List Sound) (j sc i n ps d : Nat)
    (h1 : i + 1 < P.length) (h2 : i + 2 = P.length) (hj : j ≤ i + 1)
    (hs : P[i + 1].skipable = true) :
    step c (sStopB P j sc i n ps d) .timerFire = sStopD P j sc n ps (some P[i + 1]) := by
  have hdrop : P.drop (i + 1) = P[i + 1] :: P.drop (i + 2) := List.drop_eq_getElem_cons h1
  have hne : (P.drop (i + 2)).isEmpty = true := by
    simp [List.isEmpty_iff, List.drop_eq_nil_iff]; omega
  have hpl : playsF P j (i + 2) = playsF P j (i + 1) :=
    playsF_skip P j (i + 1) P[i + 1] hj (List.getElem?_eq_getElem h1) hs
  simp only [step, sStopB, sStopD, handleNextPlaying, handleFinishedPlaying, emitO, enterDone,
    hdrop, ← h2, ← hpl]
  simp [hs, hne]
  omega

theorem step_sStopB_timer_skip_mid (c : Ctx) (P : List Sound) (j sc i n ps d : Nat)
    (h1 : i + 1 < P.length) (h2 : i + 2 < P.length) (hj : j ≤ i + 1)
    (hs : P[i + 1].skipable = true) :
    step c (sStopB P j sc i n ps d) .timerFire = sStopB P j sc (i + 1) n ps 0 := by
  have hdrop : P.drop (i + 1) = P[i + 1] :: P.drop (i + 2) := List.drop_eq_getElem_cons h1
  have hne : (P.drop (i + 2)).isEmpty = false := by
    simp [List.isEmpty_iff, List.drop_eq_nil_iff]; omega
  have hpl : playsF P j (i + 2) = playsF P j (i + 1) :=
    playsF_skip P j (i + 1) P[i + 1] hj (List.getElem?_eq_getElem h1) hs
  simp only [step, sStopB, handleNextPlaying, handleFinishedPlaying, hdrop, ← hpl]
  simp [hs, hne, List.getElem?_eq_getElem h1]

theorem step_sStopB_timer_keep (c : Ctx) (P : List Sound) (j sc i n ps d : Nat)
    (h1 : i + 1 < P.length) (hj : j ≤ i + 1)
    (hs : P[i + 1].skipable = false) :
    step c (sStopB P j sc i n ps d) .timerFire
      = sStopA P j sc (i + 1) (n + 1) ps (playsF P j (i + 1)).length := by
  have hdrop : P.drop (i + 1) = P[i + 1] :: P.drop (i + 2) := List.drop_eq_getElem_cons h1
  have hpl : playsF P j (i + 2) = playsF P j (i + 1) ++ [P[i + 1].sound] :=
    playsF_keep P j (i + 1) P[i + 1] hj (List.getElem?_eq_getElem h1) hs
  simp only [step, sStopB, sStopA, handleNextPlaying, startPlayback, hdrop, hpl]
  simp [hs, List.getElem?_eq_getElem h1]

theorem step_sPlayA_cmdStop_skip (c : Ctx) (P : List Sound) (i n : Nat)
    (hi : i < P.length) (hs : P[i].skipable = true) :
    step c (sPlayA P i n) .cmdStop = sStopA P (i + 1) 1 i n 1 i := by
  have hpl : playsF P (i + 1) (i + 1) = (mediasOf P).take (i + 1) := playsF_self P (i + 1)
  simp only [step, sPlayA, sStopA, handleStopPlaying, hpl]
  simp [List.getElem?_eq_getElem hi, hs]

theorem step_sPlayA_cmdStop_nonskip (c : Ctx) (P : List Sound) (i n : Nat)
    (hi : i < P.length) (hs : P[i].skipable = false) :
    step c (sPlayA P i n) .cmdStop = sStopA P (i + 1) 0 i n 0 i := by
  have hpl : playsF P (i + 1) (i + 1) = (mediasOf P).take (i + 1) := playsF_self P (i + 1)
  simp only [step, sPlayA, sStopA, handleStopPlaying, hpl]
  simp [List.getElem?_eq_getElem hi, hs]

theorem step_sPlayB_cmdStop_skip (c : Ctx) (P : List Sound) (i n : Nat)
    (hi : i < P.length) (hs : P[i].skipable = true) :
    step c (sPlayB P i n) .cmdStop = sStopB P (i + 1) 1 i n 1 (P[i].postSilence * 1000) := by
  have hpl : playsF P (i + 1) (i + 1) = (mediasOf P).take (i + 1) := playsF_self P (i + 1)
  have hln : ((mediasOf P).take (i + 1)).length = i + 1 := by
    simp [mediasOf]; omega
  simp only [step, sPlayB, sStopB, handleStopPlaying, hpl, hln]
  simp [List.getElem?_eq_getElem hi, hs]

theorem step_sPlayB_cmdStop_nonskip (c : Ctx) (P : List Sound) (i n : Nat)
    (hi : i < P.length) (hs : P[i].skipable = false) :
    step c (sPlayB P i n) .cmdStop = sStopB P (i + 1) 0 i n 0 (P[i].postSilence * 1000) := by
  have hpl : playsF P (i + 1) (i + 1) = (mediasOf P).take (i + 1) := playsF_self P (i + 1)
  have hln : ((mediasOf P).take (i + 1)).length = i + 1 := by
    simp [mediasOf]; omega
  simp only [step, sPlayB, sStopB, handleStopPlaying, hpl, hln]
  simp [List.getElem?_eq_getElem hi, hs]

theorem invStop_step (c : Ctx) (j sc : Nat) (s : Sess) (e : Ev)
    (hI : InvStop c j sc s) (hc : calm e = true) (he : enabled s e = true) :
    InvStop c j sc (step c s e) := by
  rcases hI with ⟨i, n, ps, f, hj, hi, hf, rfl⟩ | ⟨i, n, ps, d, hj, hi, rfl⟩ | ⟨n, ps, snd, rfl⟩
  · -- awaiting the playback-finished signal
    cases e with
    | cmdPlay => exact Or.inl ⟨i, n, ps, f, hj, hi, hf, rfl⟩
    | cmdStop => simp [calm] at hc
    | clientError => simp [calm] at hc
    | playRejected => simp [calm] at hc
    | hangup => simp [calm] at hc
    | clientReady => simp [enabled, sStopA] at he
    | playResolved => exact Or.inl ⟨i, n - 1, ps, f, hj, hi, hf, rfl⟩
    | playbackFinished =>
      rcases Nat.lt_or_ge (i + 1) (buildPlaylist c.sounds c.repl).length with hlt | hge
      · exact Or.inr (Or.inl ⟨i, n, ps, 0, hj, hlt,
          step_sStopA_finished_mid c _ j sc i n ps f hlt hf⟩)
      · have heq : i + 1 = (buildPlaylist c.sounds c.repl).length := by omega
        exact Or.inr (Or.inr ⟨n, ps, _, step_sStopA_finished_last c _ j sc i n ps f heq hf⟩)
    | timerFire => simp [enabled, sStopA] at he
    | stopResolved => exact Or.inl ⟨i, n, ps - 1, f, hj, hi, hf, rfl⟩
    | stopRejected => exact Or.inl ⟨i, n, ps - 1, f, hj, hi, hf, rfl⟩
  · -- a timeout is pending
    cases e with
    | cmdPlay => exact Or.inr (Or.inl ⟨i, n, ps, d, hj, hi, rfl⟩)
    | cmdStop => simp [calm] at hc
    | clientError => simp [calm] at hc
    | playRejected => simp [calm] at hc
    | hangup => simp [calm] at hc
    | clientReady => simp [enabled, sStopB] at he
    | playResolved => exact Or.inr (Or.inl ⟨i, n - 1, ps, d, hj, hi, rfl⟩)
    | playbackFinished => simp [enabled, sStopB] at he
    | timerFire =>
      have hj2 : j ≤ i + 2 := by omega
      rcases hsk : (buildPlaylist c.sounds c.repl)[i + 1].skipable with _ | _
      · -- non-skipable: it plays
        refine Or.inl ⟨i + 1, n + 1, ps,
          (playsF (buildPlaylist c.sounds c.repl) j (i + 1)).length, hj2, hi, ?_, ?_⟩
        · rw [playsF_keep _ j (i + 1) _ (by omega) (List.getElem?_eq_getElem hi) hsk]
          simp
        · exact step_sStopB_timer_keep c _ j sc i n ps d hi (by omega) hsk
      · -- skipable: it is skipped
        rcases Nat.lt_or_ge (i + 2) (buildPlaylist c.sounds c.repl).length with hlt | hge
        · exact Or.inr (Or.inl ⟨i + 1, n, ps, 0, hj2, hlt,
            step_sStopB_timer_skip_mid c _ j sc i n ps d hi hlt (by omega) hsk⟩)
        · have heq : i + 2 = (buildPlaylist c.sounds c.repl).length := by omega
          exact Or.inr (Or.inr ⟨n, ps, _,
            step_sStopB_timer_skip_last c _ j sc i n ps d hi heq (by omega) hsk⟩)
    | stopResolved => exact Or.inr (Or.inl ⟨i, n, ps - 1, d, hj, hi, rfl⟩)
    | stopRejected => exact Or.inr (Or.inl ⟨i, n, ps - 1, d, hj, hi, rfl⟩)
  · -- done
    cases e with
    | cmdPlay => exact Or.inr (Or.inr ⟨n, ps, snd, rfl⟩)
    | cmdStop => simp [calm] at hc
    | clientError => simp [calm] at hc
    | playRejected => simp [calm] at hc
    | hangup => simp [calm] at hc
    | clientReady => simp [enabled, sStopD] at he
    | playResolved => exact Or.inr (Or.inr ⟨n - 1, ps, snd, rfl⟩)
    | playbackFinished => simp [enabled, sStopD] at he
    | timerFire => simp [enabled, sStopD] at he
    | stopResolved => exact Or.inr (Or.inr ⟨n, ps - 1, snd, rfl⟩)
    | stopRejected => exact Or.inr (Or.inr ⟨n, ps - 1, snd, rfl⟩)

theorem invStop_run (c : Ctx) (j sc : Nat) (t : List Ev) (s : Sess)
    (hI : InvStop c j sc s) (hcalm : ∀ e ∈ t, calm e = true)
    (hv : validFrom c s t = true) :
    InvStop c j sc (runFrom c s t) := by
  induction t generalizing s with
  | nil => exact hI
  | cons e t ih =>
    rw [validFrom_cons, Bool.and_eq_true] at hv
    exact ih (step c s e)
      (invStop_step c j sc s e hI (hcalm e (List.mem_cons_self e t)) hv.1)
      (fun x hx => hcalm x (List.mem_cons_of_mem e hx)) hv.2

theorem invStop_outcome (c : Ctx) (j sc : Nat) (s : Sess) (o : Oc)
    (hI : InvStop c j sc s) (ho : s.outcome = some o) :
    o = Oc.stopped ∧
    s.plays = playsF (buildPlaylist c.sounds c.repl) j (buildPlaylist c.sounds c.repl).length ∧
    s.finCount = s.plays.length ∧ s.stopCalls = sc := by
  rcases hI with ⟨i, n, ps, f, hj, hi, hf, rfl⟩ | ⟨i, n, ps, d, hj, hi, rfl⟩ | ⟨n, ps, snd, rfl⟩
  · simp [sStopA] at ho
  · simp [sStopB] at ho
  · simp only [sStopD, Option.some.injEq] at ho
    exact ⟨ho.symm, rfl, rfl, rfl⟩

theorem invStop_start (c : Ctx) (s : Sess) (hI : InvCalm c s)
    (hplays : s.plays ≠ []) (ho : s.outcome = none) :
    ∃ j sc, j ≤ (buildPlaylist c.sounds c.repl).length ∧
      s.playlist = (buildPlaylist c.sounds c.repl).drop j ∧
      InvStop c j sc (step c s Ev.cmdStop) ∧
      (∀ snd, s.sound = some snd → snd.skipable = false → sc = 0) := by
  have hA : ∀ i n, i < (buildPlaylist c.sounds c.repl).length →
      s = sPlayA (buildPlaylist c.sounds c.repl) i n →
      ∃ j sc, j ≤ (buildPlaylist c.sounds c.repl).length ∧
        s.playlist = (buildPlaylist c.sounds c.repl).drop j ∧
        InvStop c j sc (step c s Ev.cmdStop) ∧
        (∀ snd, s.sound = some snd → snd.skipable = false → sc = 0) := by
    intro i n hi hEq
    have hfc : i + 1 = (playsF (buildPlaylist c.sounds c.repl) (i + 1) (i + 1)).length := by
      rw [playsF_self]
      simp [mediasOf]
      omega
    rcases hsk : (buildPlaylist c.sounds c.repl)[i].skipable with _ | _
    · refine ⟨i + 1, 0, by omega, by rw [hEq]; rfl, ?_, ?_⟩
      · rw [hEq, step_sPlayA_cmdStop_nonskip c _ i n hi hsk]
        exact Or.inl ⟨i, n, 0, i, by omega, hi, hfc, rfl⟩
      · intro snd hs hsf; rfl
    · refine ⟨i + 1, 1, by omega, by rw [hEq]; rfl, ?_, ?_⟩
      · rw [hEq, step_sPlayA_cmdStop_skip c _ i n hi hsk]
        exact Or.inl ⟨i, n, 1, i, by omega, hi, hfc, rfl⟩
      · intro snd hs hsf
        rw [hEq] at hs
        simp only [sPlayA, List.getElem?_eq_getElem hi, Option.some.injEq] at hs
        rw [← hs] at hsf
        rw [hsk] at hsf
        cases hsf
  have hB : ∀ i n, i + 1 < (buildPlaylist c.sounds c.repl).length →
      s = sPlayB (buildPlaylist c.sounds c.repl) i n →
      ∃ j sc, j ≤ (buildPlaylist c.sounds c.repl).length ∧
        s.playlist = (buildPlaylist c.sounds c.repl).drop j ∧
        InvStop c j sc (step c s Ev.cmdStop) ∧
        (∀ snd, s.sound = some snd → snd.skipable = false → sc = 0) := by
    intro i n hi hEq
    have hilt : i < (buildPlaylist c.sounds c.repl).length := by omega
    rcases hsk : (buildPlaylist c.sounds c.repl)[i].skipable with _ | _
    · refine ⟨i + 1, 0, by omega, by rw [hEq]; rfl, ?_, ?_⟩
      · rw [hEq, step_sPlayB_cmdStop_nonskip c _ i n hilt hsk]
        exact Or.inr (Or.inl ⟨i, n, 0, _, by omega, hi, rfl⟩)
      · intro snd hs hsf; rfl
    · refine ⟨i + 1, 1, by omega, by rw [hEq]; rfl, ?_, ?_⟩
      · rw [hEq, step_sPlayB_cmdStop_skip c _ i n hilt hsk]
        exact Or.inr (Or.inl ⟨i, n, 1, _, by omega, hi, rfl⟩)
      · intro snd hs hsf
        rw [hEq] at hs
        simp only [sPlayB, List.getElem?_eq_getElem hilt, Option.some.injEq] at hs
        rw [← hs] at hsf
        rw [hsk] at hsf
        cases hsf
  rcases hI with ⟨d, hEq⟩ | hEq | ⟨i, n, hi, hEq⟩ | ⟨i, n, hi, hEq⟩ | ⟨n, snd, b, hEq⟩
  · rw [hEq] at hplays; simp [sInit, init0] at hplays
  · rw [hEq] at hplays; simp [sProc, init0] at hplays
  · exact hA i n hi hEq
  · exact hB i n hi hEq
  · rw [hEq] at ho; simp [sDoneF] at ho

/-- The schedule that lets a stopped session in the playing state run to
its PromptStopped outcome, starting from a pending timeout about to
shift entry `k`: fire the timeout; a skipable entry is skipped (the next
timeout is scheduled at once), a non-skipable entry plays and its
playback-finished signal is delivered. -/
def driveStop (P : List Sound) (k : Nat) : List Ev :=
  if h : k < P.length then
    .timerFire ::
      (if P[k].skipable then driveStop P (k + 1) else .playbackFinished :: driveStop P (k + 1))
  else []
termination_by P.length - k

theorem driveStop_specB (c : Ctx) (P : List Sound) (j sc : Nat) :
    ∀ r i n ps d, P.length - i = r → j ≤ i + 1 → i + 1 < P.length →
      (∀ e ∈ driveStop P (i + 1), calm e = true) ∧
      validFrom c (sStopB P j sc i n ps d) (driveStop P (i + 1)) = true ∧
      ∃ m ps2 snd, runFrom c (sStopB P j sc i n ps d) (driveStop P (i + 1))
        = sStopD P j sc m ps2 snd := by
  intro r
  induction r with
  | zero => intro i n ps d hr hj hlt; omega
  | succ r ih =>
    intro i n ps d hr hj hlt
    have htf : enabled (sStopB P j sc i n ps d) .timerFire = true := by
      simp [enabled, sStopB]
    rcases hsk : P[i + 1].skipable with _ | _
    · -- non-skipable: play it, then its playback-finished signal arrives
      have hstep := step_sStopB_timer_keep c P j sc i n ps d hlt hj hsk
      have hkeep := playsF_keep P j (i + 1) P[i + 1] hj (List.getElem?_eq_getElem hlt) hsk
      have hf2 : (playsF P j (i + 1)).length + 1 = (playsF P j (i + 2)).length := by
        rw [hkeep]; simp
      have hdr : driveStop P (i + 1)
          = .timerFire :: .playbackFinished :: driveStop P (i + 2) := by
        rw [driveStop, dif_pos hlt, hsk]
        simp
      have hpbA : enabled (sStopA P j sc (i + 1) (n + 1) ps (playsF P j (i + 1)).length)
          .playbackFinished = true := by
        simp [enabled, sStopA]
      rcases Nat.lt_or_ge (i + 2) P.length with h2 | h2
      · -- more entries remain afterwards
        have hstep2 := step_sStopA_finished_mid c P j sc (i + 1) (n + 1) ps
          (playsF P j (i + 1)).length h2 hf2
        have hnil : P.length - (i + 1) = r := by omega
        obtain ⟨ihc, ihv, ihr⟩ := ih (i + 1) (n + 1) ps 0 hnil (by omega) h2
        refine ⟨?_, ?_, ?_⟩
        · intro e hx
          rw [hdr] at hx
          rcases List.mem_cons.1 hx with rfl | hx
          · rfl
          rcases List.mem_cons.1 hx with rfl | hx
          · rfl
          exact ihc e hx
        · rw [hdr, validFrom_cons, hstep, validFrom_cons, hstep2]
          simp [htf, hpbA, ihv]
        · obtain ⟨m, ps2, snd, hrun⟩ := ihr
          exact ⟨m, ps2, snd, by rw [hdr, runFrom_cons, hstep, runFrom_cons, hstep2, hrun]⟩
      · -- it was the final entry
        have heq : i + 2 = P.length := by omega
        have hstep2 := step_sStopA_finished_last c P j sc (i + 1) (n + 1) ps
          (playsF P j (i + 1)).length heq hf2
        have hend : driveStop P (i + 1 + 1) = [] := by
          rw [driveStop, dif_neg (show ¬ i + 1 + 1 < P.length by omega)]
        refine ⟨?_, ?_, ?_⟩
        · intro e hx
          rw [hdr, hend] at hx
          rcases List.mem_cons.1 hx with rfl | hx
          · rfl
          rcases List.mem_cons.1 hx with rfl | hx
          · rfl
          simp at hx
        · rw [hdr, hend, validFrom_cons, hstep, validFrom_cons, hstep2]
          simp [htf, hpbA, validFrom]
        · exact ⟨n + 1, ps, _, by rw [hdr, hend, runFrom_cons, hstep, runFrom_cons, hstep2,
            runFrom_nil]⟩
    · -- skipable: it is skipped
      rcases Nat.lt_or_ge (i + 2) P.length with h2 | h2
      · have hstep := step_sStopB_timer_skip_mid c P j sc i n ps d hlt h2 hj hsk
        have hdr : driveStop P (i + 1) = .timerFire :: driveStop P (i + 2) := by
          rw [driveStop, dif_pos hlt, hsk]
          simp
        have hnil : P.length - (i + 1) = r := by omega
        obtain ⟨ihc, ihv, ihr⟩ := ih (i + 1) n ps 0 hnil (by omega) h2
        refine ⟨?_, ?_, ?_⟩
        · intro e hx
          rw [hdr] at hx
          rcases List.mem_cons.1 hx with rfl | hx
          · rfl
          exact ihc e hx
        · rw [hdr, validFrom_cons, hstep]
          simp [htf, ihv]
        · obtain ⟨m, ps2, snd, hrun⟩ := ihr
          exact ⟨m, ps2, snd, by rw [hdr, runFrom_cons, hstep, hrun]⟩
      · have heq : i + 2 = P.length := by omega
        have hstep := step_sStopB_timer_skip_last c P j sc i n ps d hlt heq hj hsk
        have hend : driveStop P (i + 1 + 1) = [] := by
          rw [driveStop, dif_neg (show ¬ i + 1 + 1 < P.length by omega)]
        have hdr : driveStop P (i + 1) = [.timerFire] := by
          rw [driveStop, dif_pos hlt, hsk]
          simp [hend]
        refine ⟨?_, ?_, ?_⟩
        · intro e hx
          rw [hdr] at hx
          rcases List.mem_cons.1 hx with rfl | hx
          · rfl
          simp at hx
        · rw [hdr, validFrom_cons, hstep]
          simp [htf, validFrom]
        · exact ⟨n, ps, _, by rw [hdr, runFrom_cons, hstep, runFrom_nil]⟩

/-- From any reachable state of the stopped regime whose future is
unresolved, some calm schedule drives the session to the PromptStopped
outcome. -/
theorem stopCompletion (c : Ctx) (j sc : Nat) (s : Sess) (hI : InvStop c j sc s)
    (ho : s.outcome = none) :
    ∃ t2, (∀ e ∈ t2, calm e = true) ∧ validFrom c s t2 = true ∧
      (runFrom c s t2).outcome = some Oc.stopped := by
  rcases hI with ⟨i, n, ps, f, hj, hi, hf, hEq⟩ | ⟨i, n, ps, d, hj, hi, hEq⟩ | ⟨n, ps, snd, hEq⟩
  · have hpbA : enabled (sStopA (buildPlaylist c.sounds c.repl) j sc i n ps f)
        .playbackFinished = true := by
      simp [enabled, sStopA]
    rcases Nat.lt_or_ge (i + 1) (buildPlaylist c.sounds c.repl).length with hlt | hge
    · have hstep := step_sStopA_finished_mid c _ j sc i n ps f hlt hf
      obtain ⟨ihc, ihv, m, ps2, snd, ihr⟩ := driveStop_specB c (buildPlaylist c.sounds c.repl)
        j sc ((buildPlaylist c.sounds c.repl).length - i) i n ps 0 rfl hj hlt
      refine ⟨.playbackFinished :: driveStop (buildPlaylist c.sounds c.repl) (i + 1),
        ?_, ?_, ?_⟩
      · intro e hx
        rcases List.mem_cons.1 hx with rfl | hx
        · rfl
        exact ihc e hx
      · rw [hEq, validFrom_cons, hstep]
        simp [hpbA, ihv]
      · rw [hEq, runFrom_cons, hstep, ihr]
        rfl
    · have heq : i + 1 = (buildPlaylist c.sounds c.repl).length := by omega
      have hstep := step_sStopA_finished_last c _ j sc i n ps f heq hf
      refine ⟨[.playbackFinished], ?_, ?_, ?_⟩
      · intro e hx
        rcases List.mem_cons.1 hx with rfl | hx
        · rfl
        simp at hx
      · rw [hEq, validFrom_cons, hstep]
        simp [hpbA, validFrom]
      · rw [hEq, runFrom_cons, hstep, runFrom_nil]
        rfl
  · obtain ⟨ihc, ihv, m, ps2, snd, ihr⟩ := driveStop_specB c (buildPlaylist c.sounds c.repl)
      j sc ((buildPlaylist c.sounds c.repl).length - i) i n ps d rfl hj hi
    refine ⟨driveStop (buildPlaylist c.sounds c.repl) (i + 1), ihc, ?_, ?_⟩
    · rw [hEq]; exact ihv
    · rw [hEq, ihr]; rfl
  · rw [hEq] at ho; simp [sStopD] at ho

theorem invStop_stopCalls (c : Ctx) (j sc : Nat) (s : Sess) (hI : InvStop c j sc s) :
    s.stopCalls = sc := by
  rcases hI with ⟨i, n, ps, f, hj, hi, hf, rfl⟩ | ⟨i, n, ps, d, hj, hi, rfl⟩ | ⟨n, ps, snd, rfl⟩
  · rfl
  · rfl
  · rfl

/-- C2: in a run that is calm except for one stop command processed
after the first channel-play call was issued and before the future was
settled: the future only ever resolves false (the PromptStopped
outcome); when at least one of the entries still queued at the stop is
skipable, the channel-play calls made are strictly fewer than the length
of the resolved playlist; when the sound current at the stop is
non-skipable, no playback-stop request is ever made and, at resolution,
every channel-play call has received its playback-finished signal (the
active sound finished naturally); and from any unresolved point a calm
schedule reaches the false resolution. -/
theorem claim_C2 (c : Ctx) (t1 t2 : List Ev)
    (hv : validFrom c init0 (t1 ++ Ev.cmdStop :: t2) = true)
    (hc1 : ∀ e ∈ t1, calm e = true) (hc2 : ∀ e ∈ t2, calm e = true)
    (hbegun : (runFrom c init0 t1).plays ≠ [])
    (hunres : (runFrom c init0 t1).outcome = none) :
    (∀ o, (runFrom c init0 (t1 ++ Ev.cmdStop :: t2)).outcome = some o →
      o = Oc.stopped ∧ Oc.promise o = Except.ok false) ∧
    ((∃ a ∈ (runFrom c init0 t1).playlist, a.skipable = true) →
      ∀ o, (runFrom c init0 (t1 ++ Ev.cmdStop :: t2)).outcome = some o →
        (runFrom c init0 (t1 ++ Ev.cmdStop :: t2)).plays.length
          < (buildPlaylist c.sounds c.repl).length) ∧
    (∀ snd, (runFrom c init0 t1).sound = some snd → snd.skipable = false →
      (runFrom c init0 (t1 ++ Ev.cmdStop :: t2)).stopCalls = 0 ∧
      (∀ o, (runFrom c init0 (t1 ++ Ev.cmdStop :: t2)).outcome = some o →
        (runFrom c init0 (t1 ++ Ev.cmdStop :: t2)).finCount
          = (runFrom c init0 (t1 ++ Ev.cmdStop :: t2)).plays.length)) ∧
    ((runFrom c init0 (t1 ++ Ev.cmdStop :: t2)).outcome = none →
      ∃ t3, (∀ e ∈ t3, calm e = true) ∧
        validFrom c (runFrom c init0 (t1 ++ Ev.cmdStop :: t2)) t3 = true ∧
        (runFrom c (runFrom c init0 (t1 ++ Ev.cmdStop :: t2)) t3).outcome
          = some Oc.stopped) := by
  rw [validFrom_append, validFrom_cons] at hv
  simp only [Bool.and_eq_true] at hv
  obtain ⟨hv1, hven, hv2⟩ := hv
  have hIc := invCalm_run c t1 init0 (invCalm_init0 c) hc1 hv1
  obtain ⟨j, sc, hjle, hplEq, hIs, hscProp⟩ :=
    invStop_start c (runFrom c init0 t1) hIc hbegun hunres
  have hIfin := invStop_run c j sc t2 _ hIs hc2 hv2
  have hrunEq : runFrom c init0 (t1 ++ Ev.cmdStop :: t2)
      = runFrom c (step c (runFrom c init0 t1) Ev.cmdStop) t2 := by
    rw [runFrom_append, runFrom_cons]
  rw [hrunEq]
  refine ⟨?_, ?_, ?_, ?_⟩
  · intro o ho
    have h := (invStop_outcome c j sc _ o hIfin ho).1
    exact ⟨h, by rw [h]; rfl⟩
  · rintro ⟨a, ha, hsk⟩ o ho
    have hpl := (invStop_outcome c j sc _ o hIfin ho).2.1
    rw [hpl]
    rw [hplEq] at ha
    exact playsF_length_lt (buildPlaylist c.sounds c.repl) j hjle ⟨a, ha, hsk⟩
  · intro snd hs hsf
    have hsc0 : sc = 0 := hscProp snd hs hsf
    refine ⟨?_, ?_⟩
    · rw [invStop_stopCalls c j sc _ hIfin, hsc0]
    · intro o ho
      exact (invStop_outcome c j sc _ o hIfin ho).2.2.1
  · intro ho
    exact stopCompletion c j sc _ hIfin ho

/-- Witness for C2: a concrete non-skipable-then-skipable pair where the
stop arrives while the first sound plays: the future resolves false, only
one of the two entries is played, no playback-stop request is made, and
the started playback got its finished signal before termination. -/
theorem claim_C2_witness :
    (Oc.stopped = Oc.stopped ∧ Oc.promise Oc.stopped = Except.ok false) ∧
    (runFrom ⟨[⟨"sound:one", false, 1⟩, ⟨"sound:two", true, 0⟩], []⟩ init0
      ([Ev.cmdPlay, Ev.clientReady] ++ Ev.cmdStop :: [Ev.playbackFinished, Ev.timerFire])).plays.length
      < (buildPlaylist [⟨"sound:one", false, 1⟩, ⟨"sound:two", true, 0⟩] []).length ∧
    (runFrom ⟨[⟨"sound:one", false, 1⟩, ⟨"sound:two", true, 0⟩], []⟩ init0
      ([Ev.cmdPlay, Ev.clientReady] ++ Ev.cmdStop :: [Ev.playbackFinished, Ev.timerFire])).stopCalls = 0 ∧
    (runFrom ⟨[⟨"sound:one", false, 1⟩, ⟨"sound:two", true, 0⟩], []⟩ init0
      ([Ev.cmdPlay, Ev.clientReady] ++ Ev.cmdStop :: [Ev.playbackFinished, Ev.timerFire])).finCount
      = (runFrom ⟨[⟨"sound:one", false, 1⟩, ⟨"sound:two", true, 0⟩], []⟩ init0
      ([Ev.cmdPlay, Ev.clientReady] ++ Ev.cmdStop :: [Ev.playbackFinished, Ev.timerFire])).plays.length := by
  have h := claim_C2 ⟨[⟨"sound:one", false, 1⟩, ⟨"sound:two", true, 0⟩], []⟩
    [Ev.cmdPlay, Ev.clientReady] [Ev.playbackFinished, Ev.timerFire]
    (by decide) (by decide) (by decide) (by decide) (by decide)
  have h3 := h.2.2.1 ⟨"sound:one", false, 1⟩ (by decide) (by decide)
  exact ⟨⟨(h.1 Oc.stopped (by decide)).1, (h.1 Oc.stopped (by decide)).2⟩,
    h.2.1 ⟨⟨"sound:two", true, 0⟩, by decide, by decide⟩ Oc.stopped (by decide),
    h3.1, h3.2 Oc.stopped (by decide)⟩

theorem handleStopPlaying_frame (s : Sess) :
    (handleStopPlaying s).timer = s.timer ∧ (handleStopPlaying s).playlist = s.playlist ∧
    (handleStopPlaying s).plays = s.plays ∧ (handleStopPlaying s).sound = s.sound ∧
    (handleStopPlaying s).outcome = s.outcome ∧ (handleStopPlaying s).fsmSt = s.fsmSt ∧
    (handleStopPlaying s).stopped = true ∧ (handleStopPlaying s).finCount = s.finCount ∧
    (handleStopPlaying s).pendingPlay = s.pendingPlay ∧
    (handleStopPlaying s).listeners = s.listeners ∧
    (handleStopPlaying s).hangupListener = s.hangupListener ∧
    (handleStopPlaying s).pbListener = s.pbListener := by
  unfold handleStopPlaying
  cases hs : s.sound with
  | none => simp [hs]
  | some snd =>
    simp only [hs]
    split_ifs <;> simp

/-- C6 counterexample: a session whose first sound has finished and whose
two-second post-silence timeout is pending. The step processing a stop
command leaves the pending timeout untouched at its full two thousand
milliseconds, shifts nothing off the playlist, starts no playback and
settles nothing: the session does not advance until the timeout fires,
so a stop arriving after the delay was scheduled does not cancel the
delay and does not dispatch the internal next immediately. -/
theorem claim_C6_counterexample :
    (runFrom ⟨[⟨"sound:one", true, 2⟩, ⟨"sound:two", true, 0⟩], []⟩ init0
      [Ev.cmdPlay, Ev.clientReady, Ev.playbackFinished]).timer = some 2000 ∧
    (step ⟨[⟨"sound:one", true, 2⟩, ⟨"sound:two", true, 0⟩], []⟩
      (runFrom ⟨[⟨"sound:one", true, 2⟩, ⟨"sound:two", true, 0⟩], []⟩ init0
        [Ev.cmdPlay, Ev.clientReady, Ev.playbackFinished]) Ev.cmdStop).timer = some 2000 ∧
    (step ⟨[⟨"sound:one", true, 2⟩, ⟨"sound:two", true, 0⟩], []⟩
      (runFrom ⟨[⟨"sound:one", true, 2⟩, ⟨"sound:two", true, 0⟩], []⟩ init0
        [Ev.cmdPlay, Ev.clientReady, Ev.playbackFinished]) Ev.cmdStop).playlist
      = [⟨"sound:two", true, 0⟩] ∧
    (step ⟨[⟨"sound:one", true, 2⟩, ⟨"sound:two", true, 0⟩], []⟩
      (runFrom ⟨[⟨"sound:one", true, 2⟩, ⟨"sound:two", true, 0⟩], []⟩ init0
        [Ev.cmdPlay, Ev.clientReady, Ev.playbackFinished]) Ev.cmdStop).plays = ["sound:one"] ∧
    (step ⟨[⟨"sound:one", true, 2⟩, ⟨"sound:two", true, 0⟩], []⟩
      (runFrom ⟨[⟨"sound:one", true, 2⟩, ⟨"sound:two", true, 0⟩], []⟩ init0
        [Ev.cmdPlay, Ev.clientReady, Ev.playbackFinished]) Ev.cmdStop).outcome = none := by
  refine ⟨by decide, by decide, by decide, by decide, by decide⟩

/-- C6 amended: a stop command processed while a post-silence timeout is
pending does not cancel the timeout and does not advance the session: the
step leaves the pending timeout, the playlist, the channel-play record,
the current sound and the settled outcome unchanged, and only sets the
stopped flag (beside a possible best-effort playback-stop request); the
internal next is dispatched only when the already-scheduled timeout
itself fires, after its full original delay. -/
theorem claim_C6_amended (c : Ctx) (s : Sess) (d : Nat)
    (hst : s.fsmSt = FsmState.playing) (ht : s.timer = some d) :
    (step c s Ev.cmdStop).timer = some d ∧
    (step c s Ev.cmdStop).playlist = s.playlist ∧
    (step c s Ev.cmdStop).plays = s.plays ∧
    (step c s Ev.cmdStop).sound = s.sound ∧
    (step c s Ev.cmdStop).outcome = s.outcome ∧
    (step c s Ev.cmdStop).stopped = true := by
  have hstep : step c s Ev.cmdStop = handleStopPlaying s := by
    simp [step, hst]
  obtain ⟨h1, h2, h3, h4, h5, _, h7, _⟩ := handleStopPlaying_frame s
  rw [hstep]
  exact ⟨by rw [h1, ht], h2, h3, h4, h5, h7⟩

/-- Witness for the amended C6, at the state of the counterexample. -/
theorem claim_C6_witness :
    (step ⟨[⟨"sound:one", true, 2⟩, ⟨"sound:two", true, 0⟩], []⟩
      (runFrom ⟨[⟨"sound:one", true, 2⟩, ⟨"sound:two", true, 0⟩], []⟩ init0
        [Ev.cmdPlay, Ev.clientReady, Ev.playbackFinished]) Ev.cmdStop).timer = some 2000 ∧
    (step ⟨[⟨"sound:one", true, 2⟩, ⟨"sound:two", true, 0⟩], []⟩
      (runFrom ⟨[⟨"sound:one", true, 2⟩, ⟨"sound:two", true, 0⟩], []⟩ init0
        [Ev.cmdPlay, Ev.clientReady, Ev.playbackFinished]) Ev.cmdStop).stopped = true := by
  have h := claim_C6_amended ⟨[⟨"sound:one", true, 2⟩, ⟨"sound:two", true, 0⟩], []⟩
    (runFrom ⟨[⟨"sound:one", true, 2⟩, ⟨"sound:two", true, 0⟩], []⟩ init0
      [Ev.cmdPlay, Ev.clientReady, Ev.playbackFinished]) 2000 (by decide) (by decide)
  exact ⟨h.1, h.2.2.2.2.2⟩

theorem handleStopPlaying_ps (s : Sess) (p : Nat) :
    ∃ q, handleStopPlaying { s with pendingStops := p }
      = { handleStopPlaying s with pendingStops := q } := by
  unfold handleStopPlaying
  cases hs : s.sound with
  | none => exact ⟨p, by simp [hs]⟩
  | some snd =>
    by_cases h1 : snd.skipable = true
    · by_cases h2 : s.playbackSet = true
      · exact ⟨p + 1, by simp [hs, h1, h2]⟩
      · exact ⟨p, by simp [hs, h1, h2]⟩
    · exact ⟨p, by simp [hs, h1]⟩

theorem emitO_ps (o : Oc) (s : Sess) (p : Nat) :
    emitO o { s with pendingStops := p } = { emitO o s with pendingStops := p } := by
  unfold emitO
  by_cases h : s.listeners = true <;> simp [h]

theorem handleFinishedPlaying_ps (s : Sess) (p : Nat) :
    handleFinishedPlaying { s with pendingStops := p }
      = { handleFinishedPlaying s with pendingStops := p } := by
  unfold handleFinishedPlaying
  by_cases h : s.playlist.isEmpty = true
  · simp [h, emitO_ps, enterDone]
  · cases hs : s.sound with
    | none => simp [h, hs]
    | some snd => simp [h, hs]

theorem handleNextPlaying_ps (s : Sess) (p : Nat) :
    handleNextPlaying { s with pendingStops := p }
      = { handleNextPlaying s with pendingStops := p } := by
  obtain ⟨st, cp, hl, pb, pbs, stp, cr, ls, pl, snd, dp, dpl, tm, np, ps0, oc, pls, scs, fc⟩ := s
  cases pl with
  | nil =>
    simpa [handleNextPlaying] using handleFinishedPlaying_ps
      ⟨st, cp, hl, pb, pbs, stp, cr, ls, [], none, dp, dpl, tm, np, ps0, oc, pls, scs, fc⟩ p
  | cons a rest =>
    by_cases h1 : stp = true
    · by_cases h2 : a.skipable = true
      · simpa [handleNextPlaying, h1, h2] using handleFinishedPlaying_ps
          ⟨st, cp, hl, pb, pbs, stp, cr, ls, rest, some a, dp, dpl, tm, np, ps0, oc, pls, scs, fc⟩ p
      · simp [handleNextPlaying, h1, h2, startPlayback]
    · simp [handleNextPlaying, h1, startPlayback]

theorem flushStops_ps (n : Nat) : ∀ (s : Sess) (p : Nat),
    ∃ q, flushStops n { s with pendingStops := p }
      = { flushStops n s with pendingStops := q } := by
  induction n with
  | zero => intro s p; exact ⟨p, rfl⟩
  | succ n ih =>
    intro s p
    obtain ⟨st, cp, hl, pb, pbs, stp, cr, ls, pl, snd, dp, dpl, tm, np, ps0, oc, pls, scs, fc⟩ := s
    cases cr with
    | true => exact ⟨p, by simp [flushStops]⟩
    | false =>
      obtain ⟨q1, h1⟩ := handleStopPlaying_ps
        ⟨st, cp, hl, pb, pbs, stp, false, ls, pl, snd, dp, dpl, tm, np, ps0, oc, pls, scs, fc⟩ p
      obtain ⟨q2, h2⟩ := ih (handleStopPlaying
        ⟨st, cp, hl, pb, pbs, stp, false, ls, pl, snd, dp, dpl, tm, np, ps0, oc, pls, scs, fc⟩) q1
      refine ⟨q2, ?_⟩
      simp only [flushStops, Bool.false_eq_true, if_false]
      rw [h1, h2]

theorem transitionPlaying_ps (s : Sess) (p : Nat) :
    ∃ q, transitionPlaying { s with pendingStops := p }
      = { transitionPlaying s with pendingStops := q } := by
  obtain ⟨st, cp, hl, pb, pbs, stp, cr, ls, pl, snd, dp, dpl, tm, np, ps0, oc, pls, scs, fc⟩ := s
  simpa [transitionPlaying] using flushStops_ps dpl
    ⟨FsmState.playing, cp, hl, pb, pbs, stp, cr, ls, pl, snd, dp, 0, tm, np, ps0, oc, pls, scs, fc⟩ p

theorem processingPlay_ps (c : Ctx) (s : Sess) (p : Nat) :
    ∃ q, processingPlay c { s with pendingStops := p }
      = { processingPlay c s with pendingStops := q } := by
  obtain ⟨st, cp, hl, pb, pbs, stp, cr, ls, pl, snd, dp, dpl, tm, np, ps0, oc, pls, scs, fc⟩ := s
  obtain ⟨q1, h1⟩ := transitionPlaying_ps
    ⟨st, cp, hl, pb, pbs, stp, cr, ls, buildPlaylist c.sounds c.repl, snd,
      dp, dpl, tm, np, ps0, oc, pls, scs, fc⟩ p
  refine ⟨q1, ?_⟩
  simp only [processingPlay]
  rw [h1]
  by_cases hcr : (transitionPlaying ⟨st, cp, hl, pb, pbs, stp, cr, ls,
      buildPlaylist c.sounds c.repl, snd, dp, dpl, tm, np, ps0, oc, pls, scs, fc⟩).crashed = true
  · simp [hcr]
  · dsimp only
    rw [if_neg ?side, if_neg hcr]
    case side => dsimp only; exact hcr
    exact handleNextPlaying_ps _ q1

theorem transitionProcessing_ps (c : Ctx) (s : Sess) (p : Nat) :
    ∃ q, transitionProcessing c { s with pendingStops := p }
      = { transitionProcessing c s with pendingStops := q } := by
  obtain ⟨st, cp, hl, pb, pbs, stp, cr, ls, pl, snd, dp, dpl, tm, np, ps0, oc, pls, scs, fc⟩ := s
  by_cases hd : dp = 0
  · exact ⟨p, by simp [transitionProcessing, hd]⟩
  · obtain ⟨q1, h1⟩ := processingPlay_ps c
      ⟨FsmState.processing, cp, hl, pb, pbs, stp, cr, ls, pl, snd, 0, dpl, tm, np, ps0, oc,
        pls, scs, fc⟩ p
    refine ⟨q1, ?_⟩
    simp only [transitionProcessing, hd, if_false]
    simpa using h1

theorem step_ps (c : Ctx) (e : Ev) (s : Sess) (p : Nat) :
    ∃ q, step c { s with pendingStops := p } e = { step c s e with pendingStops := q } := by
  obtain ⟨st, cp, hl, pb, pbs, stp, cr, ls, pl, snd, dp, dpl, tm, np, ps0, oc, pls, scs, fc⟩ := s
  cases e with
  | cmdPlay =>
    cases st with
    | init => exact ⟨p, by simp [step]⟩
    | processing =>
      simpa [step] using processingPlay_ps c
        ⟨FsmState.processing, cp, hl, pb, pbs, stp, cr, ls, pl, snd, dp, dpl, tm, np, ps0, oc,
          pls, scs, fc⟩ p
    | playing => exact ⟨p, by simp [step]⟩
    | done => exact ⟨p, by simp [step]⟩
  | cmdStop =>
    cases st with
    | init => exact ⟨p, by simp [step]⟩
    | processing => exact ⟨p, by simp [step]⟩
    | playing =>
      simpa [step] using handleStopPlaying_ps
        ⟨FsmState.playing, cp, hl, pb, pbs, stp, cr, ls, pl, snd, dp, dpl, tm, np, ps0, oc,
          pls, scs, fc⟩ p
    | done => exact ⟨p, by simp [step]⟩
  | clientReady =>
    simpa [step] using transitionProcessing_ps c
      ⟨st, false, hl, pb, pbs, stp, cr, ls, pl, snd, dp, dpl, tm, np, ps0, oc, pls, scs, fc⟩ p
  | clientError => exact ⟨p, by cases ls <;> simp [step, emitO, enterDone]⟩
  | hangup => exact ⟨p, by cases ls <;> simp [step, emitO, enterDone]⟩
  | playResolved => exact ⟨p, by simp [step]⟩
  | playRejected => exact ⟨p, by cases ls <;> simp [step, emitO, enterDone]⟩
  | playbackFinished =>
    cases st with
    | init => exact ⟨p, by simp [step]⟩
    | processing => exact ⟨p, by simp [step]⟩
    | playing =>
      refine ⟨p, ?_⟩
      simp only [step]
      exact handleFinishedPlaying_ps
        ⟨FsmState.playing, cp, hl, false, pbs, stp, cr, ls, pl, snd, dp, dpl, tm, np, ps0, oc,
          pls, scs, fc + 1⟩ p
    | done => exact ⟨p, by simp [step]⟩
  | timerFire =>
    cases st with
    | init => exact ⟨p, by simp [step]⟩
    | processing => exact ⟨p, by simp [step]⟩
    | playing =>
      refine ⟨p, ?_⟩
      simp only [step]
      exact handleNextPlaying_ps
        ⟨FsmState.playing, cp, hl, pb, pbs, stp, cr, ls, pl, snd, dp, dpl, none, np, ps0, oc,
          pls, scs, fc⟩ p
    | done => exact ⟨p, by simp [step]⟩
  | stopResolved => exact ⟨p - 1, by simp [step]⟩
  | stopRejected => exact ⟨p - 1, by simp [step]⟩

theorem runFrom_ps (c : Ctx) : ∀ (t : List Ev) (s : Sess) (p : Nat),
    ∃ q, runFrom c { s with pendingStops := p } t
      = { runFrom c s t with pendingStops := q } := by
  intro t
  induction t with
  | nil => intro s p; exact ⟨p, rfl⟩
  | cons e t ih =>
    intro s p
    obtain ⟨q1, h1⟩ := step_ps c e s p
    obtain ⟨q2, h2⟩ := ih (step c s e) q1
    exact ⟨q2, by rw [runFrom_cons, h1, h2, runFrom_cons]⟩

/-- C9: a failed resolution of a stop-triggered playback-stop request is
swallowed: the step processing the failure only discards the pending
playback-stop promise, and the whole remaining run is unchanged by the
failure in every respect other than that bookkeeping — same outcome
(still the false resolution rather than a rejection), same channel-play
calls, same machine state, driven by the same playback-finished
signals. -/
theorem claim_C9 (c : Ctx) (t1 t2 : List Ev)
    (hv : validFrom c init0 (t1 ++ Ev.stopRejected :: t2) = true) :
    step c (runFrom c init0 t1) Ev.stopRejected
      = { runFrom c init0 t1 with
          pendingStops := (runFrom c init0 t1).pendingStops - 1 } ∧
    (runFrom c init0 (t1 ++ Ev.stopRejected :: t2)).outcome
      = (runFrom c init0 (t1 ++ t2)).outcome ∧
    (runFrom c init0 (t1 ++ Ev.stopRejected :: t2)).plays
      = (runFrom c init0 (t1 ++ t2)).plays ∧
    (runFrom c init0 (t1 ++ Ev.stopRejected :: t2)).fsmSt
      = (runFrom c init0 (t1 ++ t2)).fsmSt ∧
    (runFrom c init0 (t1 ++ Ev.stopRejected :: t2)).stopped
      = (runFrom c init0 (t1 ++ t2)).stopped ∧
    (runFrom c init0 (t1 ++ Ev.stopRejected :: t2)).finCount
      = (runFrom c init0 (t1 ++ t2)).finCount := by
  have h1 : step c (runFrom c init0 t1) Ev.stopRejected
      = { runFrom c init0 t1 with
          pendingStops := (runFrom c init0 t1).pendingStops - 1 } := rfl
  obtain ⟨q, hq⟩ := runFrom_ps c t2 (runFrom c init0 t1)
    ((runFrom c init0 t1).pendingStops - 1)
  have hEq1 : runFrom c init0 (t1 ++ Ev.stopRejected :: t2)
      = runFrom c { runFrom c init0 t1 with
          pendingStops := (runFrom c init0 t1).pendingStops - 1 } t2 := by
    rw [runFrom_append, runFrom_cons, h1]
  have hEq2 : runFrom c init0 (t1 ++ t2) = runFrom c (runFrom c init0 t1) t2 :=
    runFrom_append c init0 t1 t2
  refine ⟨h1, ?_, ?_, ?_, ?_, ?_⟩ <;> rw [hEq1, hq, hEq2]

/-- Witness for C9: a stop on a skipable sound whose cancellation then
fails; the run with the failure has the same outcome as the run without
it, and that outcome is the false resolution. -/
theorem claim_C9_witness :
    (runFrom ⟨[⟨"sound:one", true, 2⟩, ⟨"sound:two", true, 0⟩], []⟩ init0
      ([Ev.cmdPlay, Ev.clientReady, Ev.cmdStop]
        ++ Ev.stopRejected :: [Ev.playbackFinished, Ev.timerFire])).outcome
      = (runFrom ⟨[⟨"sound:one", true, 2⟩, ⟨"sound:two", true, 0⟩], []⟩ init0
        ([Ev.cmdPlay, Ev.clientReady, Ev.cmdStop]
          ++ [Ev.playbackFinished, Ev.timerFire])).outcome ∧
    (runFrom ⟨[⟨"sound:one", true, 2⟩, ⟨"sound:two", true, 0⟩], []⟩ init0
      ([Ev.cmdPlay, Ev.clientReady, Ev.cmdStop]
        ++ Ev.stopRejected :: [Ev.playbackFinished, Ev.timerFire])).outcome
      = some Oc.stopped := by
  have h := claim_C9 ⟨[⟨"sound:one", true, 2⟩, ⟨"sound:two", true, 0⟩], []⟩
    [Ev.cmdPlay, Ev.clientReady, Ev.cmdStop] [Ev.playbackFinished, Ev.timerFire]
    (by decide)
  exact ⟨h.2.1, by decide⟩

/-- The one-shot propagation invariant: the facade listeners are attached
exactly while the future is unsettled; while the channel-disconnect
handler is attached the future is unsettled; and in the done state the
future is settled and both the channel-disconnect and playback-finished
subscriptions are detached. -/
def GInv (s : Sess) : Prop :=
  (s.listeners = s.outcome.isNone) ∧
  (s.hangupListener = true → s.outcome = none) ∧
  (s.fsmSt = FsmState.done → s.outcome.isSome ∧ s.hangupListener = false ∧ s.pbListener = false)

theorem GInv_emitDone (o : Oc) (s : Sess) (hG : GInv s) : GInv (enterDone (emitO o s)) := by
  obtain ⟨h1, h2, h3⟩ := hG
  obtain ⟨st, cp, hl, pb, pbs, stp, cr, ls, pl, snd, dp, dpl, tm, np, ps0, oc, pls, scs, fc⟩ := s
  cases ls with
  | true => simp [GInv, emitO, enterDone]
  | false =>
    cases oc with
    | none => exact absurd h1 (by simp)
    | some o2 => simp [GInv, emitO, enterDone]

theorem GInv_handleStop (s : Sess) (hG : GInv s) : GInv (handleStopPlaying s) := by
  obtain ⟨h1, h2, h3⟩ := hG
  obtain ⟨st, cp, hl, pb, pbs, stp, cr, ls, pl, snd, dp, dpl, tm, np, ps0, oc, pls, scs, fc⟩ := s
  simp only [GInv] at h1 h2 h3 ⊢
  unfold handleStopPlaying
  cases snd with
  | none => exact ⟨h1, h2, h3⟩
  | some a =>
    by_cases ha : a.skipable = true
    · by_cases hp : pbs = true
      · simp only [ha, hp]
        simpa using ⟨h1, h2, h3⟩
      · simp only [ha, hp]
        simpa using ⟨h1, h2, h3⟩
    · simp only [ha]
      simpa using ⟨h1, h2, h3⟩

theorem flushStops_fsm (n : Nat) : ∀ s : Sess, (flushStops n s).fsmSt = s.fsmSt := by
  induction n with
  | zero => intro s; rfl
  | succ n ih =>
    intro s
    by_cases hcr : s.crashed = true
    · simp [flushStops, hcr]
    · simp only [Bool.not_eq_true] at hcr
      simp only [flushStops, hcr, Bool.false_eq_true, if_false]
      rw [ih, (handleStopPlaying_frame s).2.2.2.2.2.1]

theorem GInv_flushStops (n : Nat) : ∀ s : Sess, GInv s → GInv (flushStops n s) := by
  induction n with
  | zero => intro s hG; exact hG
  | succ n ih =>
    intro s hG
    by_cases hcr : s.crashed = true
    · simpa [flushStops, hcr] using hG
    · simp only [Bool.not_eq_true] at hcr
      simp only [flushStops, hcr, Bool.false_eq_true, if_false]
      exact ih _ (GInv_handleStop s hG)

theorem GInv_handleFinished (s : Sess) (hG : GInv s) : GInv (handleFinishedPlaying s) := by
  obtain ⟨h1, h2, h3⟩ := hG
  obtain ⟨st, cp, hl, pb, pbs, stp, cr, ls, pl, snd, dp, dpl, tm, np, ps0, oc, pls, scs, fc⟩ := s
  by_cases he : pl.isEmpty = true
  · simpa [handleFinishedPlaying, he] using GInv_emitDone (if stp then Oc.stopped else Oc.finished)
      ⟨st, cp, hl, pb, pbs, stp, cr, ls, pl, snd, dp, dpl, tm, np, ps0, oc, pls, scs, fc⟩
      ⟨h1, h2, h3⟩
  · unfold handleFinishedPlaying
    cases snd with
    | none => simpa [he] using ⟨h1, h2, h3⟩
    | some a => simpa [he] using ⟨h1, h2, h3⟩

theorem GInv_handleNext (s : Sess) (hG : GInv s) (hst : s.fsmSt = FsmState.playing) :
    GInv (handleNextPlaying s) := by
  obtain ⟨h1, h2, h3⟩ := hG
  obtain ⟨st, cp, hl, pb, pbs, stp, cr, ls, pl, snd, dp, dpl, tm, np, ps0, oc, pls, scs, fc⟩ := s
  obtain rfl : st = FsmState.playing := hst
  cases pl with
  | nil =>
    exact GInv_handleFinished _ ⟨h1, h2, fun h => nomatch h⟩
  | cons a rest =>
    by_cases hskip : (stp && a.skipable) = true
    · simp only [handleNextPlaying, hskip, if_true]
      exact GInv_handleFinished _ ⟨h1, h2, fun h => nomatch h⟩
    · simp only [handleNextPlaying, hskip, Bool.false_eq_true, if_false, startPlayback]
      exact ⟨h1, h2, fun h => nomatch h⟩

theorem GInv_processingPlay (c : Ctx) (s : Sess) (hG : GInv s) : GInv (processingPlay c s) := by
  obtain ⟨h1, h2, h3⟩ := hG
  obtain ⟨st, cp, hl, pb, pbs, stp, cr, ls, pl, snd, dp, dpl, tm, np, ps0, oc, pls, scs, fc⟩ := s
  unfold processingPlay transitionPlaying
  have hG1 : GInv (flushStops dpl
      ⟨FsmState.playing, cp, hl, pb, pbs, stp, cr, ls, buildPlaylist c.sounds c.repl, snd,
        dp, 0, tm, np, ps0, oc, pls, scs, fc⟩) :=
    GInv_flushStops dpl _ ⟨h1, h2, fun h => nomatch h⟩
  have hfsm : (flushStops dpl
      ⟨FsmState.playing, cp, hl, pb, pbs, stp, cr, ls, buildPlaylist c.sounds c.repl, snd,
        dp, 0, tm, np, ps0, oc, pls, scs, fc⟩).fsmSt = FsmState.playing := by
    rw [flushStops_fsm]
  by_cases hcr : (flushStops dpl
      ⟨FsmState.playing, cp, hl, pb, pbs, stp, cr, ls, buildPlaylist c.sounds c.repl, snd,
        dp, 0, tm, np, ps0, oc, pls, scs, fc⟩).crashed = true
  · simpa [hcr] using hG1
  · simpa [hcr] using GInv_handleNext _ hG1 hfsm

theorem GInv_step (c : Ctx) (s : Sess) (e : Ev) (hG : GInv s) : GInv (step c s e) := by
  cases e with
  | cmdPlay =>
    cases hst : s.fsmSt with
    | init =>
      simp only [step, hst]
      exact ⟨hG.1, hG.2.1, fun h => nomatch h⟩
    | processing => simp only [step, hst]; exact GInv_processingPlay c s hG
    | playing => simp only [step, hst]; exact hG
    | done => simp only [step, hst]; exact hG
  | cmdStop =>
    cases hst : s.fsmSt with
    | init =>
      simp only [step, hst]
      exact ⟨hG.1, hG.2.1, fun h => nomatch h⟩
    | processing => simp only [step, hst]; exact hG
    | playing => simp only [step, hst]; exact GInv_handleStop s hG
    | done => simp only [step, hst]; exact hG
  | clientReady =>
    obtain ⟨h1, h2, h3⟩ := hG
    obtain ⟨st, cp, hl, pb, pbs, stp, cr, ls, pl, snd, dp, dpl, tm, np, ps0, oc, pls, scs, fc⟩ := s
    simp only [step, transitionProcessing]
    by_cases hd : dp = 0
    · rw [if_pos hd]
      exact ⟨h1, h2, fun h => nomatch h⟩
    · rw [if_neg hd]
      exact GInv_processingPlay c _ ⟨h1, h2, fun h => nomatch h⟩
  | clientError => exact GInv_emitDone _ _ ⟨hG.1, hG.2.1, hG.2.2⟩
  | hangup =>
    have hArg : GInv { s with hangupListener := false } := by
      refine ⟨hG.1, ?_, ?_⟩
      · intro h
        exact absurd h (by simp)
      · intro h
        exact ⟨(hG.2.2 h).1, rfl, (hG.2.2 h).2.2⟩
    exact GInv_emitDone _ _ hArg
  | playResolved => exact ⟨hG.1, hG.2.1, hG.2.2⟩
  | playRejected => exact GInv_emitDone _ _ ⟨hG.1, hG.2.1, hG.2.2⟩
  | playbackFinished =>
    cases hst : s.fsmSt with
    | init =>
      simp only [step, hst]
      exact ⟨hG.1, hG.2.1, fun h => nomatch h⟩
    | processing =>
      simp only [step, hst]
      exact ⟨hG.1, hG.2.1, fun h => nomatch h⟩
    | playing =>
      simp only [step, hst]
      exact GInv_handleFinished _ ⟨hG.1, hG.2.1, fun h => nomatch h⟩
    | done =>
      simp only [step, hst]
      exact ⟨hG.1, hG.2.1, fun _ => ⟨(hG.2.2 hst).1, (hG.2.2 hst).2.1, rfl⟩⟩
  | timerFire =>
    cases hst : s.fsmSt with
    | init =>
      simp only [step, hst]
      exact ⟨hG.1, hG.2.1, fun h => nomatch h⟩
    | processing =>
      simp only [step, hst]
      exact ⟨hG.1, hG.2.1, fun h => nomatch h⟩
    | playing =>
      simp only [step, hst]
      exact GInv_handleNext _ ⟨hG.1, hG.2.1, fun h => nomatch h⟩ rfl
    | done =>
      simp only [step, hst]
      exact ⟨hG.1, hG.2.1, fun _ => hG.2.2 hst⟩
  | stopResolved => exact ⟨hG.1, hG.2.1, hG.2.2⟩
  | stopRejected => exact ⟨hG.1, hG.2.1, hG.2.2⟩

theorem GInv_init0 : GInv init0 :=
  ⟨rfl, fun _ => rfl, fun h => nomatch h⟩

theorem GInv_run (c : Ctx) : ∀ (t : List Ev) (s : Sess), GInv s → GInv (runFrom c s t) := by
  intro t
  induction t with
  | nil => intro s hG; exact hG
  | cons e t ih => intro s hG; exact ih (step c s e) (GInv_step c s e hG)

theorem emitO_no (o : Oc) (s : Sess) (h : s.listeners = false) : emitO o s = s := by
  simp [emitO, h]

theorem stable_handleFinished (s : Sess) (h : s.listeners = false) :
    (handleFinishedPlaying s).outcome = s.outcome ∧ (handleFinishedPlaying s).listeners = false := by
  unfold handleFinishedPlaying
  by_cases he : s.playlist.isEmpty = true
  · simp [he, emitO_no _ _ h, enterDone, h]
  · cases hs : s.sound <;> simp [he, hs, h]

theorem stable_handleNext (s : Sess) (h : s.listeners = false) :
    (handleNextPlaying s).outcome = s.outcome ∧ (handleNextPlaying s).listeners = false := by
  unfold handleNextPlaying
  cases hp : s.playlist with
  | nil => exact stable_handleFinished _ h
  | cons a rest =>
    by_cases hskip : (s.stopped && a.skipable) = true
    · simp only [hskip, if_true]
      exact stable_handleFinished _ h
    · simp [hskip, startPlayback, h]

theorem stable_handleStop (s : Sess) :
    (handleStopPlaying s).outcome = s.outcome ∧ (handleStopPlaying s).listeners = s.listeners :=
  ⟨(handleStopPlaying_frame s).2.2.2.2.1, (handleStopPlaying_frame s).2.2.2.2.2.2.2.2.2.1⟩

theorem stable_flushStops (n : Nat) : ∀ s : Sess,
    (flushStops n s).outcome = s.outcome ∧ (flushStops n s).listeners = s.listeners := by
  induction n with
  | zero => intro s; exact ⟨rfl, rfl⟩
  | succ n ih =>
    intro s
    by_cases hcr : s.crashed = true
    · simp [flushStops, hcr]
    · simp only [Bool.not_eq_true] at hcr
      simp only [flushStops, hcr, Bool.false_eq_true, if_false]
      obtain ⟨o1, l1⟩ := ih (handleStopPlaying s)
      obtain ⟨o2, l2⟩ := stable_handleStop s
      exact ⟨o1.trans o2, l1.trans l2⟩

theorem stable_processingPlay (c : Ctx) (s : Sess) (h : s.listeners = false) :
    (processingPlay c s).outcome = s.outcome ∧ (processingPlay c s).listeners = false := by
  obtain ⟨st, cp, hl, pb, pbs, stp, cr, ls, pl, snd, dp, dpl, tm, np, ps0, oc, pls, scs, fc⟩ := s
  obtain rfl : ls = false := h
  unfold processingPlay transitionPlaying
  obtain ⟨o1, l1⟩ := stable_flushStops dpl
    ⟨FsmState.playing, cp, hl, pb, pbs, stp, cr, false, buildPlaylist c.sounds c.repl, snd,
      dp, 0, tm, np, ps0, oc, pls, scs, fc⟩
  by_cases hcr : (flushStops dpl
      ⟨FsmState.playing, cp, hl, pb, pbs, stp, cr, false, buildPlaylist c.sounds c.repl, snd,
        dp, 0, tm, np, ps0, oc, pls, scs, fc⟩).crashed = true
  · simp only [hcr, if_true]
    exact ⟨o1, l1⟩
  · simp only [hcr, Bool.false_eq_true, if_false]
    obtain ⟨o2, l2⟩ := stable_handleNext _ l1
    exact ⟨o2.trans o1, l2⟩

theorem stable_step (c : Ctx) (s : Sess) (e : Ev) (h : s.listeners = false) :
    (step c s e).outcome = s.outcome ∧ (step c s e).listeners = false := by
  cases e with
  | cmdPlay =>
    cases hst : s.fsmSt with
    | init => simp [step, hst, h]
    | processing => simp only [step, hst]; exact stable_processingPlay c s h
    | playing => simp [step, hst, h]
    | done => simp [step, hst, h]
  | cmdStop =>
    cases hst : s.fsmSt with
    | init => simp [step, hst, h]
    | processing => simp [step, hst, h]
    | playing =>
      simp only [step, hst]
      exact ⟨(stable_handleStop s).1, (stable_handleStop s).2.trans h⟩
    | done => simp [step, hst, h]
  | clientReady =>
    obtain ⟨st, cp, hl, pb, pbs, stp, cr, ls, pl, snd, dp, dpl, tm, np, ps0, oc, pls, scs, fc⟩ := s
    obtain rfl : ls = false := h
    simp only [step, transitionProcessing]
    by_cases hd : dp = 0
    · rw [if_pos hd]
      exact ⟨rfl, rfl⟩
    · rw [if_neg hd]
      exact stable_processingPlay c _ rfl
  | clientError =>
    simp only [step]
    rw [show emitO (Oc.err EKind.clientFailure) { s with clientPending := false }
        = { s with clientPending := false } from emitO_no _ _ h]
    exact ⟨rfl, h⟩
  | hangup =>
    simp only [step]
    rw [show emitO (Oc.err EKind.hungup) { s with hangupListener := false }
        = { s with hangupListener := false } from emitO_no _ _ h]
    exact ⟨rfl, h⟩
  | playResolved => exact ⟨rfl, h⟩
  | playRejected =>
    simp only [step]
    rw [show emitO (Oc.err EKind.playbackFailure)
        { s with pendingPlay := s.pendingPlay - 1 }
        = { s with pendingPlay := s.pendingPlay - 1 } from emitO_no _ _ h]
    exact ⟨rfl, h⟩
  | playbackFinished =>
    cases hst : s.fsmSt with
    | init => simp [step, hst, h]
    | processing => simp [step, hst, h]
    | playing =>
      simp only [step, hst]
      exact stable_handleFinished _ h
    | done => simp [step, hst, h]
  | timerFire =>
    cases hst : s.fsmSt with
    | init => simp [step, hst, h]
    | processing => simp [step, hst, h]
    | playing =>
      simp only [step, hst]
      exact stable_handleNext _ h
    | done => simp [step, hst, h]
  | stopResolved => exact ⟨rfl, h⟩
  | stopRejected => exact ⟨rfl, h⟩

theorem stable_run (c : Ctx) : ∀ (t : List Ev) (s : Sess), s.listeners = false →
    (runFrom c s t).outcome = s.outcome ∧ (runFrom c s t).listeners = false := by
  intro t
  induction t with
  | nil => intro s h; exact ⟨rfl, h⟩
  | cons e t ih =>
    intro s h
    obtain ⟨o1, l1⟩ := stable_step c s e h
    obtain ⟨o2, l2⟩ := ih (step c s e) l1
    exact ⟨o2.trans o1, l2⟩

theorem emitO_yes (o : Oc) (s : Sess) (h : s.listeners = true) :
    emitO o s = { s with outcome := some o, listeners := false } := by
  simp [emitO, h]

/-- C5: when the channel emits its disconnect signal while the session's
disconnect handler is still attached (that is, before the terminal state
was reached), the future of `play()` settles to the rejection carrying
the hangup error, and keeps that value through any continuation of the
run, regardless of how many entries had already completed. -/
theorem claim_C5 (c : Ctx) (t1 t2 : List Ev)
    (hv : validFrom c init0 (t1 ++ Ev.hangup :: t2) = true) :
    (runFrom c init0 (t1 ++ Ev.hangup :: t2)).outcome = some (Oc.err EKind.hungup) ∧
    Oc.promise (Oc.err EKind.hungup) = Except.error EKind.hungup := by
  rw [validFrom_append, validFrom_cons] at hv
  simp only [Bool.and_eq_true] at hv
  obtain ⟨hv1, hen, hv2⟩ := hv
  have hG := GInv_run c t1 init0 GInv_init0
  have hhl : (runFrom c init0 t1).hangupListener = true := by
    simp only [enabled, Bool.and_eq_true] at hen
    exact hen.2
  have ho1 : (runFrom c init0 t1).outcome = none := hG.2.1 hhl
  have hls : (runFrom c init0 t1).listeners = true := by rw [hG.1, ho1]; rfl
  have hstep : (step c (runFrom c init0 t1) Ev.hangup).outcome = some (Oc.err EKind.hungup) ∧
      (step c (runFrom c init0 t1) Ev.hangup).listeners = false := by
    simp only [step]
    rw [show emitO (Oc.err EKind.hungup) { runFrom c init0 t1 with hangupListener := false }
        = { { runFrom c init0 t1 with hangupListener := false } with
            outcome := some (Oc.err EKind.hungup), listeners := false } from
      emitO_yes (Oc.err EKind.hungup) { runFrom c init0 t1 with hangupListener := false } hls]
    exact ⟨rfl, rfl⟩
  obtain ⟨o3, l3⟩ := stable_run c t2 _ hstep.2
  rw [runFrom_append, runFrom_cons]
  exact ⟨o3.trans hstep.1, rfl⟩

/-- Witness for C5: a hangup arriving while the first sound plays rejects
the future with the hangup error, and a late channel-play resolution
afterwards does not change that. -/
theorem claim_C5_witness :
    (runFrom ⟨[⟨"sound:hello", false, 1⟩, ⟨"sound:world", true, 0⟩], []⟩ init0
      ([Ev.cmdPlay, Ev.clientReady] ++ Ev.hangup :: [Ev.playResolved])).outcome
      = some (Oc.err EKind.hungup) ∧
    Oc.promise (Oc.err EKind.hungup) = Except.error EKind.hungup :=
  claim_C5 ⟨[⟨"sound:hello", false, 1⟩, ⟨"sound:world", true, 0⟩], []⟩
    [Ev.cmdPlay, Ev.clientReady] [Ev.playResolved] (by decide)

/-- C7: one-shot propagation. Once the future of `play()` is settled with
one of the three outcomes at some point of a run, it holds that same
value at the end of the run (no second resolution or rejection); whenever
it is settled the three facade listeners are detached; and in the done
state the future is settled and the channel-disconnect and
playback-finished subscriptions are detached. -/
theorem claim_C7 (c : Ctx) (t : List Ev) (hv : validFrom c init0 t = true) :
    (∀ t1 t2 o, t = t1 ++ t2 → (runFrom c init0 t1).outcome = some o →
      (runFrom c init0 t).outcome = some o) ∧
    (∀ o, (runFrom c init0 t).outcome = some o → (runFrom c init0 t).listeners = false) ∧
    ((runFrom c init0 t).fsmSt = FsmState.done →
      (runFrom c init0 t).outcome.isSome = true ∧
      (runFrom c init0 t).hangupListener = false ∧
      (runFrom c init0 t).pbListener = false) := by
  have hG := GInv_run c t init0 GInv_init0
  refine ⟨?_, ?_, hG.2.2⟩
  · rintro t1 t2 o rfl ho
    have hG1 := GInv_run c t1 init0 GInv_init0
    have hls : (runFrom c init0 t1).listeners = false := by rw [hG1.1, ho]; rfl
    obtain ⟨o2, l2⟩ := stable_run c t2 _ hls
    rw [runFrom_append, o2, ho]
  · intro o ho
    rw [hG.1, ho]; rfl

/-- Witness for C7: in a run that hangs up mid-playback and then sees a
late channel-play resolution, the early rejection persists to the end,
the facade listeners are detached, and the done state has both
subscriptions removed. -/
theorem claim_C7_witness :
    (runFrom ⟨[⟨"sound:hello", false, 1⟩, ⟨"sound:world", true, 0⟩], []⟩ init0
      [Ev.cmdPlay, Ev.clientReady, Ev.hangup, Ev.playResolved]).outcome
      = some (Oc.err EKind.hungup) ∧
    (runFrom ⟨[⟨"sound:hello", false, 1⟩, ⟨"sound:world", true, 0⟩], []⟩ init0
      [Ev.cmdPlay, Ev.clientReady, Ev.hangup, Ev.playResolved]).listeners = false ∧
    (runFrom ⟨[⟨"sound:hello", false, 1⟩, ⟨"sound:world", true, 0⟩], []⟩ init0
      [Ev.cmdPlay, Ev.clientReady, Ev.hangup, Ev.playResolved]).hangupListener = false ∧
    (runFrom ⟨[⟨"sound:hello", false, 1⟩, ⟨"sound:world", true, 0⟩], []⟩ init0
      [Ev.cmdPlay, Ev.clientReady, Ev.hangup, Ev.playResolved]).pbListener = false := by
  have h := claim_C7 ⟨[⟨"sound:hello", false, 1⟩, ⟨"sound:world", true, 0⟩], []⟩
    [Ev.cmdPlay, Ev.clientReady, Ev.hangup, Ev.playResolved] (by decide)
  have h1 := h.1 [Ev.cmdPlay, Ev.clientReady, Ev.hangup] [Ev.playResolved]
    (Oc.err EKind.hungup) rfl (by decide)
  have h3 := h.2.2 (by decide)
  exact ⟨h1, h.2.1 _ h1, h3.2.1, h3.2.2⟩

theorem filter_range_singleton (p : Nat → Bool) :
    ∀ (n i : Nat), i < n → p i = true → (∀ j, j < n → p j = true → j = i) →
      (List.range n).filter p = [i] := by
  intro n
  induction n with
  | zero => intro i hi; omega
  | succ n ih =>
    intro i hi hp huniq
    rw [List.range_succ, List.filter_append]
    by_cases hin : i < n
    · have h1 : (List.range n).filter p = [i] :=
        ih i hin hp (fun j hj hpj => huniq j (by omega) hpj)
      have h2 : p n = false := by
        by_contra hc
        simp only [Bool.not_eq_false] at hc
        have := huniq n (by omega) hc
        omega
      simp [h1, h2]
    · have hieq : i = n := by omega
      subst hieq
      have h1 : (List.range i).filter p = [] := by
        rw [List.filter_eq_nil_iff]
        intro a ha
        rw [List.mem_range] at ha
        intro hc
        have := huniq a (by omega) hc
        omega
      simp [h1, hp]

theorem lastCloseBrace_spec (name q : List Char)
    (hname : name ≠ []) (hn : '}' ∉ name) (hq : '}' ∉ q) :
    lastCloseBrace (name ++ '}' :: q) = some name.length := by
  unfold lastCloseBrace
  have hlen : (name ++ '}' :: q).length = name.length + 1 + q.length := by simp; omega
  have hfil : (List.range (name ++ '}' :: q).length).filter
      (fun p => decide (1 ≤ p) && ((name ++ '}' :: q).get? p == some '}')) = [name.length] := by
    apply filter_range_singleton _ _ name.length (by omega)
    · have h1 : (1 ≤ name.length) := by
        cases name with
        | nil => exact absurd rfl hname
        | cons a t => simp
      have h2 : (name ++ '}' :: q).get? name.length = some '}' := by
        rw [List.get?_append_right (Nat.le_refl _)]
        simp
      simp only [h2]
      simp [h1]
    · intro j hj hpj
      simp only [Bool.and_eq_true, decide_eq_true_eq, beq_iff_eq] at hpj
      obtain ⟨hj1, hj2⟩ := hpj
      by_contra hne
      rcases Nat.lt_or_ge j name.length with hlt | hge
      · rw [List.get?_append hlt] at hj2
        exact hn (List.get?_mem hj2)
      · have hgt : name.length < j := by omega
        rw [List.get?_append_right hge] at hj2
        have hj3 : j - name.length = (j - name.length - 1) + 1 := by omega
        rw [hj3] at hj2
        simp only [List.get?_cons_succ] at hj2
        exact hq (List.get?_mem hj2)
  rw [hfil]
  rfl

theorem matchAfterBrace_spec (name post : List Char)
    (hname : name ≠ []) (hn : '}' ∉ name)
    (hnl : ∀ ch ∈ name, isLineTerminator ch = false)
    (hpost : '}' ∉ post) :
    matchAfterBrace (name ++ '}' :: post) = some name := by
  unfold matchAfterBrace
  have hrun : (name ++ '}' :: post).takeWhile (fun c => !isLineTerminator c)
      = name ++ '}' :: post.takeWhile (fun c => !isLineTerminator c) := by
    rw [List.takeWhile_append]
    have hall : ∀ ch ∈ name, (fun c => !isLineTerminator c) ch = true := by
      intro ch hch
      simp [hnl ch hch]
    rw [List.takeWhile_eq_self_iff.2 hall]
    simp [isLineTerminator]
  rw [hrun]
  dsimp only
  have hq : '}' ∉ post.takeWhile (fun c => !isLineTerminator c) := by
    intro hmem
    exact hpost ((List.takeWhile_prefix _).subset hmem)
  rw [lastCloseBrace_spec name _ hname hn hq]
  simp [List.take_left]

theorem execBrace_spec (pre name post : List Char)
    (hpre : '{' ∉ pre)
    (hname : name ≠ []) (hn : '}' ∉ name)
    (hnl : ∀ ch ∈ name, isLineTerminator ch = false)
    (hpost : '}' ∉ post) :
    execBrace (pre ++ '{' :: (name ++ '}' :: post)) = some name := by
  induction pre with
  | nil =>
    simp [execBrace, matchAfterBrace_spec name post hname hn hnl hpost]
  | cons a pre ih =>
    have ha : ¬ a = '{' := fun hc => hpre (hc ▸ List.mem_cons_self a pre)
    simp only [List.cons_append, execBrace, if_neg ha]
    exact ih (fun hm => hpre (List.mem_cons_of_mem a hm))

theorem splitFirst_spec (pre name post : List Char)
    (hpre : '{' ∉ pre) :
    splitFirst ('{' :: (name ++ ['}'])) (pre ++ '{' :: (name ++ '}' :: post))
      = some (pre, post) := by
  induction pre with
  | nil =>
    have hassoc : ('{' :: (name ++ ['}'])) ++ post = '{' :: (name ++ '}' :: post) := by
      simp
    have hpref : ('{' :: (name ++ ['}'])).isPrefixOf ('{' :: (name ++ '}' :: post)) = true := by
      rw [List.isPrefixOf_iff_prefix]
      exact ⟨post, hassoc⟩
    rw [List.nil_append, splitFirst, if_pos hpref]
    rw [← hassoc, List.drop_left]
  | cons a pre ih =>
    have ha : ('{' :: (name ++ ['}'])).isPrefixOf
        (a :: (pre ++ '{' :: (name ++ '}' :: post))) = false := by
      have haa : ¬ a = '{' := fun hc => hpre (hc ▸ List.mem_cons_self a pre)
      simp [List.isPrefixOf]
      intro hc
      exact absurd hc.symm haa
    rw [List.cons_append, splitFirst, if_neg (by rw [ha]; exact Bool.false_ne_true)]
    rw [ih (fun hm => hpre (List.mem_cons_of_mem a hm))]
    rfl

theorem getSubst_id_aux (m pre post : List Char) :
    ∀ (n : Nat) (l : List Char), l.length ≤ n → '$' ∉ l → getSubst m pre post l = l := by
  intro n
  induction n with
  | zero =>
    intro l hl hd
    have : l = [] := List.eq_nil_of_length_eq_zero (by omega)
    rw [this]
    rfl
  | succ n ih =>
    intro l hl hd
    match l with
    | [] => rfl
    | [c] => rfl
    | c :: d :: rest =>
      have hc : ¬ c = '$' := fun hc => hd (hc ▸ List.mem_cons_self _ _)
      rw [getSubst, if_neg hc]
      have htail : '$' ∉ d :: rest := fun hm => hd (List.mem_cons_of_mem c hm)
      have hlen : (d :: rest).length ≤ n := by
        simp only [List.length_cons] at hl ⊢
        omega
      rw [ih (d :: rest) hlen htail]

theorem getSubst_id (m pre post l : List Char) (hd : '$' ∉ l) :
    getSubst m pre post l = l :=
  getSubst_id_aux m pre post l.length l (Nat.le_refl _) hd

theorem resolveSound_spec (pre name post : List Char) (sub : String) (sk : Bool) (ps : Nat)
    (repl : List (String × String))
    (hpre : '{' ∉ pre) (hname : name ≠ []) (hn : '}' ∉ name)
    (hnl : ∀ ch ∈ name, isLineTerminator ch = false) (hpost : '}' ∉ post)
    (hlk : (List.lookup (String.mk name) repl).getD "undefined" = sub)
    (hd : '$' ∉ sub.data) :
    resolveSound repl ⟨String.mk (pre ++ '{' :: (name ++ '}' :: post)), sk, ps⟩
      = ⟨String.mk (pre ++ sub.data ++ post), sk, ps⟩ := by
  unfold resolveSound
  show (match execBrace (pre ++ '{' :: (name ++ '}' :: post)) with
    | none => _
    | some g => _) = _
  rw [execBrace_spec pre name post hpre hname hn hnl hpost]
  dsimp only
  rw [splitFirst_spec pre name post hpre]
  dsimp only
  rw [hlk, getSubst_id _ _ _ _ hd]

/-- C3 counterexample: with the replacement value a dollar-ampersand
string, the replace call re-inserts the matched token instead of the
value (the dollar escapes of the replacement template are active), so
the built media string is not the original with the token textually
replaced by the value. -/
theorem claim_C3_counterexample :
    buildPlaylist [⟨"characters:{exten}", false, 1⟩] [("exten", "$&")]
      = [⟨"characters:{exten}", false, 1⟩] ∧
    ¬ ((buildPlaylist [⟨"characters:{exten}", false, 1⟩] [("exten", "$&")]).map
        (fun a => a.sound) = ["characters:$&"]) := by
  exact ⟨by decide, by decide⟩

/-- C3 amended: for a media string holding a single placeholder (an
opening brace not preceded by another opening brace, a non-empty name
free of closing braces and line terminators, and a remainder free of
closing braces) and a replacement mapping binding the name to a value
free of the dollar character, playlist building produces an entry whose
media string is the original with the whole token textually replaced by
the value; the builder is a pure map over the descriptor list (it copies
each descriptor and never mutates its inputs). A value containing a
dollar is instead subject to the replacement-template escapes of the
replace call. -/
theorem claim_C3_amended (pre name post v : List Char) (sk : Bool) (ps : Nat)
    (repl : List (String × String))
    (hpre : '{' ∉ pre) (hname : name ≠ []) (hn : '}' ∉ name)
    (hnl : ∀ ch ∈ name, isLineTerminator ch = false) (hpost : '}' ∉ post)
    (hv : List.lookup (String.mk name) repl = some (String.mk v))
    (hd : '$' ∉ v) :
    buildPlaylist [⟨String.mk (pre ++ '{' :: (name ++ '}' :: post)), sk, ps⟩] repl
      = [⟨String.mk (pre ++ v ++ post), sk, ps⟩] ∧
    resolveSound repl ⟨String.mk (pre ++ '{' :: (name ++ '}' :: post)), sk, ps⟩
      = ⟨String.mk (pre ++ v ++ post), sk, ps⟩ := by
  have h := resolveSound_spec pre name post (String.mk v) sk ps repl hpre hname hn hnl hpost
    (by rw [hv]; rfl) hd
  constructor
  · show [resolveSound repl ⟨String.mk (pre ++ '{' :: (name ++ '}' :: post)), sk, ps⟩] = _
    rw [h]
  · exact h

/-- Witness for the amended C3: the spec scenario, with the resolved
media equal to the expected literal. -/
theorem claim_C3_witness :
    buildPlaylist [⟨String.mk ("characters:".data ++ '{' :: ("exten".data ++ '}' :: "".data)),
        false, 1⟩] [("exten", "1234")]
      = [⟨String.mk ("characters:".data ++ "1234".data ++ "".data), false, 1⟩] ∧
    String.mk ("characters:".data ++ '{' :: ("exten".data ++ '}' :: "".data))
      = "characters:{exten}" ∧
    String.mk ("characters:".data ++ "1234".data ++ "".data) = "characters:1234" := by
  have h := claim_C3_amended "characters:".data "exten".data "".data "1234".data false 1
    [("exten", "1234")] (by decide) (by decide) (by decide) (by decide) (by decide)
    (by decide) (by decide)
  exact ⟨h.1, by decide, by decide⟩

/-- C4 counterexample: a placeholder whose name is bound by no key of
the replacement mapping does not make playlist building fail: an entry
is produced, and the token is replaced by the string rendering of the
undefined value. -/
theorem claim_C4_counterexample :
    buildPlaylist [⟨"sound:{foo}", false, 0⟩] [] = [⟨"sound:undefined", false, 0⟩] ∧
    (buildPlaylist [⟨"sound:{foo}", false, 0⟩] []).length = 1 := by
  exact ⟨by decide, by decide⟩

/-- C4 amended: for a media string holding a single placeholder whose
name is not a key of the replacement mapping, playlist building raises
no error: it produces an entry whose media string has the whole token
replaced by the string "undefined" (the rendering of the undefined
lookup inside the replace call), deferring any failure to playback
time. -/
theorem claim_C4_amended (pre name post : List Char) (sk : Bool) (ps : Nat)
    (repl : List (String × String))
    (hpre : '{' ∉ pre) (hname : name ≠ []) (hn : '}' ∉ name)
    (hnl : ∀ ch ∈ name, isLineTerminator ch = false) (hpost : '}' ∉ post)
    (hv : List.lookup (String.mk name) repl = none) :
    buildPlaylist [⟨String.mk (pre ++ '{' :: (name ++ '}' :: post)), sk, ps⟩] repl
      = [⟨String.mk (pre ++ "undefined".data ++ post), sk, ps⟩] := by
  have h := resolveSound_spec pre name post "undefined" sk ps repl hpre hname hn hnl hpost
    (by rw [hv]; rfl) (by decide)
  show [resolveSound repl ⟨String.mk (pre ++ '{' :: (name ++ '}' :: post)), sk, ps⟩] = _
  rw [h]

/-- Witness for the amended C4: a missing key yields the "undefined"
substitution, at the concrete counterexample input. -/
theorem claim_C4_witness :
    buildPlaylist [⟨String.mk ("sound:".data ++ '{' :: ("foo".data ++ '}' :: "".data)),
        false, 0⟩] [("bar", "x")]
      = [⟨String.mk ("sound:".data ++ "undefined".data ++ "".data), false, 0⟩] ∧
    String.mk ("sound:".data ++ "undefined".data ++ "".data) = "sound:undefined" := by
  have h := claim_C4_amended "sound:".data "foo".data "".data false 0 [("bar", "x")]
    (by decide) (by decide) (by decide) (by decide) (by decide) (by decide)
  exact ⟨h, by decide⟩

end VMPrompt
